import Mathlib

/-!
Verification of the agent-orchestrator's human-in-the-loop core.

JavaScript strings are modelled as lists of characters (`JStr`); every string
operation used by the embedded code is defined here from scratch, mirroring the
semantics of the JavaScript string methods the source uses (`trim`, `split`,
`includes`, `startsWith`, `indexOf`, `substring`, `toLowerCase`).
-/

/-- JavaScript strings, modelled as lists of characters. -/
abbrev JStr := List Char

/-- Whitespace characters: the ASCII subset of JavaScript's `\s` class and of
the characters removed by `String.prototype.trim` (space, tab, newline,
carriage return, vertical tab, form feed). -/
def isWS (c : Char) : Bool :=
  c = ' ' || c = '\t' || c = '\n' || c = '\r' || c = Char.ofNat 11 || c = Char.ofNat 12

/-- `String.prototype.trimStart`. -/
def trimStart (s : JStr) : JStr := s.dropWhile isWS

/-- `String.prototype.trimEnd`. -/
def trimEnd (s : JStr) : JStr := (s.reverse.dropWhile isWS).reverse

/-- `String.prototype.trim`. -/
def jsTrim (s : JStr) : JStr := trimEnd (trimStart s)

/-- `String.prototype.startsWith`. -/
def jsStartsWith (s p : JStr) : Bool := p.isPrefixOf s

/-- `String.prototype.includes`: substring containment. -/
def includes (s p : JStr) : Bool :=
  match s with
  | [] => p.isEmpty
  | _ :: rest => p.isPrefixOf s || includes rest p

/-- `String.prototype.indexOf`: index of the first occurrence, `-1` if none. -/
def jsIndexOf (s p : JStr) : Int :=
  match s with
  | [] => if p.isEmpty then 0 else -1
  | _ :: rest =>
    if p.isPrefixOf s then 0
    else
      let r := jsIndexOf rest p
      if r < 0 then -1 else r + 1

/-- `String.prototype.substring(start)`: negative start indices clamp to 0,
indices past the end yield the empty string. -/
def substringFrom (s : JStr) (i : Int) : JStr := s.drop i.toNat

/-- `String.prototype.split('\n')`. -/
def splitNl (s : JStr) : List JStr :=
  match s with
  | [] => [[]]
  | c :: rest =>
    let r := splitNl rest
    if c = '\n' then [] :: r
    else
      match r with
      | [] => [[c]]
      | h :: t => (c :: h) :: t

/-- `String.prototype.toLowerCase` (ASCII range, which covers every character
the embedded code compares). -/
def jsToLower (s : JStr) : JStr := s.map Char.toLower

/-- Case-insensitive prefix test, as a case-insensitive regex literal performs
at a fixed position. -/
def ciPrefix (p s : JStr) : Bool :=
  match p, s with
  | [], _ => true
  | _ :: _, [] => false
  | a :: ps, b :: ss => (a.toLower = b.toLower) && ciPrefix ps ss

/-- Base-10 digits, least significant first, computed with an explicit fuel
argument (the number itself suffices, since each digit consumes one unit). -/
def digitsRevAux : Nat → Nat → List Nat
  | 0, _ => []
  | _ + 1, 0 => []
  | fuel + 1, n + 1 => ((n + 1) % 10) :: digitsRevAux fuel ((n + 1) / 10)

/-- Decimal rendering of a natural number, as JavaScript string interpolation
renders `Date.now()`. -/
def natToJStr (n : Nat) : JStr :=
  if n = 0 then ['0'] else ((digitsRevAux n n).map Nat.digitChar).reverse

/-- The regex fragment `^[A-Z]+:`: one or more capital letters followed by a
colon, anchored at the start. -/
def isUpperAZ (c : Char) : Bool := 'A' ≤ c && c ≤ 'Z'

def upperColonAfter (s : JStr) : Bool :=
  match s with
  | [] => false
  | c :: rest => c = ':' || (isUpperAZ c && upperColonAfter rest)

def startsUpperColon (s : JStr) : Bool :=
  match s with
  | [] => false
  | c :: rest => isUpperAZ c && upperColonAfter rest

/- Structured prefixes recognised by the response parsers. -/

def DECISIONp : JStr := (r"DECISION:").data
def CODEp : JStr := (r"CODE:").data
def GUIDANCEp : JStr := (r"GUIDANCE:").data
def APPROVALp : JStr := (r"APPROVAL:").data
def FEEDBACKp : JStr := (r"FEEDBACK:").data
def QUESTIONp : JStr := (r"QUESTION:").data
def PROCEEDp : JStr := (r"PROCEED:").data
def YESp : JStr := (r"yes").data
def NOp : JStr := (r"no").data

/- Response type names, as the string literals the source stores in the
`type` field of its parsed-response objects. -/

def tyDecision : JStr := (r"decision").data
def tyCode : JStr := (r"code").data
def tyGuidance : JStr := (r"guidance").data
def tyApproval : JStr := (r"approval").data
def tyQuestion : JStr := (r"question").data
def tyGeneral : JStr := (r"general").data

namespace HumanLoopService

/-- The accumulation loop of `HumanLoopService.extractStructuredContent`
(specializedAgents.js): a line whose trimmed form starts with the prefix
(re)sets the content to the remainder of that line, trimmed, and starts
capturing; once capturing, a line whose trimmed form matches `^[A-Z]+:` stops
the loop; a nonblank line is appended after a single space; blank lines are
skipped. -/
def extractLoop (key : JStr) : List JStr → JStr → Bool → JStr
  | [], content, _ => content
  | line :: rest, content, capturing =>
    if jsStartsWith (jsTrim line) key then
      extractLoop key rest (jsTrim (substringFrom line (jsIndexOf line key + (key.length : Int)))) true
    else if capturing && startsUpperColon (jsTrim line) then content
    else if capturing && !(jsTrim line).isEmpty then
      extractLoop key rest (content ++ ' ' :: jsTrim line) capturing
    else extractLoop key rest content capturing

/-- `HumanLoopService.extractStructuredContent(text, prefix)`. -/
def extractStructuredContent (text key : JStr) : JStr :=
  jsTrim (extractLoop key (splitNl text) [] false)

/-- A parsed human response, as built by `HumanLoopService.parseHumanResponse`.
In the source the `feedback` and `approved` fields are only present on
`approval` responses; the defaults model their absence elsewhere. -/
structure Parsed where
  ty : JStr
  content : JStr
  raw : JStr
  feedback : JStr := []
  approved : Bool := false
deriving DecidableEq, Repr

/-- `HumanLoopService.parseHumanResponse(responseText)`: a chain of
case-sensitive substring tests in the order DECISION:, CODE:, GUIDANCE:,
APPROVAL:, QUESTION:, falling back to a `general` response. -/
def parseHumanResponse (responseText : JStr) : Parsed :=
  let text := jsTrim responseText
  if includes text DECISIONp then
    { ty := tyDecision, content := extractStructuredContent text DECISIONp, raw := text }
  else if includes text CODEp then
    { ty := tyCode, content := extractStructuredContent text CODEp, raw := text }
  else if includes text GUIDANCEp then
    { ty := tyGuidance, content := extractStructuredContent text GUIDANCEp, raw := text }
  else if includes text APPROVALp then
    let approval := extractStructuredContent text APPROVALp
    let feedback := extractStructuredContent text FEEDBACKp
    { ty := tyApproval, content := approval, feedback := feedback,
      approved := includes (jsToLower approval) YESp, raw := text }
  else if includes text QUESTIONp then
    { ty := tyQuestion, content := extractStructuredContent text QUESTIONp, raw := text }
  else
    { ty := tyGeneral, content := text, raw := text }

end HumanLoopService

/- Status strings stored in the `status` field of pending requests. -/

def stPending : JStr := (r"pending").data
def stResponded : JStr := (r"responded").data
def stCancelled : JStr := (r"cancelled").data

/-- The cancellation reason `cleanupOldRequests` passes to
`cancelPendingRequest` in specializedAgents.js. -/
def timeoutReason : JStr := (r"timeout - no response received").data

/-- Externally observable side effects of the embedded services: calls into
the Gitea/MCP capabilities, agent invocations and workflow-engine-visible
task-status updates. -/
inductive Event
  | issueCreated (taskId : JStr) (issueNumber : Nat)
  | confirmationComment (issueNumber : Nat) (ty : JStr)
  | cancellationComment (issueNumber : Nat) (reason : JStr)
  | agentNotified (agentId ty content : JStr)
  | taskStatusUpdated (taskId stage : JStr)
  | agentInvoked (prompt : JStr)
  | gitAddAll
  | gitCommit (message : JStr)
  | testsExecuted
  | branchCreated (taskId : JStr)
  | clarificationRequested (taskId : JStr)
  | verificationRequested (taskId : JStr)
  | planRegenerated (oldPlan feedback : JStr)
  | prCreated (taskId : JStr)
  | reviewFeedbackHandled (taskId : JStr)
deriving DecidableEq, Repr

/- Workflow stage and status strings used by the workflow engine and the
agent service. -/

def stAwaitingClarification : JStr := (r"awaiting_clarification").data
def stAwaitingVerification : JStr := (r"awaiting_verification").data
def stAwaitingReview : JStr := (r"awaiting_review").data
def stBranchCreation : JStr := (r"branch_creation").data
def stImplementationPlanning : JStr := (r"implementation_planning").data
def stepRequirementsAnalysis : JStr := (r"requirements_analysis").data
def stepOutcomeVerification : JStr := (r"outcome_verification").data
def stepPullRequestCreated : JStr := (r"pull_request_created").data

/- Response type names the AgentService dispatch tests for. -/

def tyClarification : JStr := (r"clarification").data
def tyVerification : JStr := (r"verification").data
def tyReviewFeedback : JStr := (r"review_feedback").data

/- JavaScript `Map` semantics over an insertion-ordered association list:
`set` overwrites in place or appends, `get` finds by key, `delete` removes. -/

def mapGet (m : List (JStr × α)) (k : JStr) : Option α :=
  (m.find? (fun p => p.1 = k)).map Prod.snd

def mapSet (m : List (JStr × α)) (k : JStr) (v : α) : List (JStr × α) :=
  if m.any (fun p => p.1 = k) then m.map (fun p => if p.1 = k then (k, v) else p)
  else m ++ [(k, v)]

def mapDelete (m : List (JStr × α)) (k : JStr) : List (JStr × α) :=
  m.filter (fun p => p.1 ≠ k)

namespace HumanLoopService

/-- A `PendingHumanRequest` record as stored in
`HumanLoopService.pendingRequests`. Timestamps are milliseconds, as
`Date.now()` produces. -/
structure Request where
  id : JStr
  taskId : JStr
  agentId : JStr
  issueNumber : Nat
  createdAt : Nat
  status : JStr
  response : Option Parsed := none
  respondedAt : Option Nat := none
  cancelledAt : Option Nat := none
  cancellationReason : Option JStr := none
deriving DecidableEq, Repr

/-- The service state: the `pendingRequests` map, the trace of external side
effects, and the issue-number counter of the external issue tracker. -/
structure HLState where
  pendingRequests : List (JStr × Request) := []
  events : List Event := []
  nextIssueNumber : Nat := 1
deriving DecidableEq, Repr

/-- `HumanLoopService.requestHumanInput(task, context)`: creates a Gitea issue
unconditionally, then stores a fresh pending request under the key
`` `${task.id}_${Date.now()}` ``, and returns the created issue. No lookup of
an existing pending request happens. -/
def requestHumanInput (st : HLState) (taskId agentId : JStr) (now : Nat) :
    Nat × HLState :=
  let issueNumber := st.nextIssueNumber
  let requestId := taskId ++ '_' :: natToJStr now
  let req : Request :=
    { id := requestId, taskId := taskId, agentId := agentId,
      issueNumber := issueNumber, createdAt := now, status := stPending }
  (issueNumber,
   { st with
     nextIssueNumber := issueNumber + 1,
     events := st.events ++ [Event.issueCreated taskId issueNumber],
     pendingRequests := mapSet st.pendingRequests requestId req })

/-- `HumanLoopService.findPendingRequest(taskId, agentId)`: first request in
map iteration (insertion) order matching the pair with status `pending`. -/
def findPendingRequest (st : HLState) (taskId agentId : JStr) : Option Request :=
  (st.pendingRequests.find? (fun p =>
    p.2.taskId = taskId && p.2.agentId = agentId && p.2.status = stPending)).map Prod.snd

/-- The error message `agentService.processHumanResponse` throws for an
unknown agent. -/
def errAgentNotFound (agentId : JStr) : JStr :=
  (r"Agent not found: ").data ++ agentId

/-- `HumanLoopService.processHumanResponse(responseData)`: looks up the
pending request for (taskId, agentId); if none is found it logs a warning and
returns `null` (modelled as `.ok none`). Otherwise it parses the comment body,
mutates the request to `responded` in place, notifies the agent service
(which throws if the agent is unknown — the mutation is already applied at
that point), posts a confirmation comment, deletes the request from the map
and returns the parsed response. -/
def processHumanResponse (st : HLState) (agents : List JStr)
    (taskId agentId commentBody : JStr) (now : Nat) :
    Except JStr (Option Parsed) × HLState :=
  match findPendingRequest st taskId agentId with
  | none => (.ok none, st)
  | some pendingRequest =>
    let parsedResponse := parseHumanResponse commentBody
    let updated := { pendingRequest with
      status := stResponded, response := some parsedResponse, respondedAt := some now }
    let st1 := { st with pendingRequests := mapSet st.pendingRequests pendingRequest.id updated }
    if agents.contains agentId then
      let st2 := { st1 with events := st1.events ++
        [Event.agentNotified agentId parsedResponse.ty parsedResponse.content,
         Event.confirmationComment pendingRequest.issueNumber parsedResponse.ty] }
      (.ok (some parsedResponse),
       { st2 with pendingRequests := mapDelete st2.pendingRequests pendingRequest.id })
    else
      (.error (errAgentNotFound agentId), st1)

/-- `HumanLoopService.cancelPendingRequest(requestId, reason)`: throws if the
id is absent; otherwise marks the request cancelled with the reason, posts a
cancellation comment, and deletes the request from the map. -/
def cancelPendingRequest (st : HLState) (requestId reason : JStr) (now : Nat) :
    Except Unit Unit × HLState :=
  match mapGet st.pendingRequests requestId with
  | none => (.error (), st)
  | some request =>
    let updated := { request with
      status := stCancelled, cancelledAt := some now, cancellationReason := some reason }
    let st1 := { st with
      pendingRequests := mapSet st.pendingRequests requestId updated,
      events := st.events ++ [Event.cancellationComment request.issueNumber reason] }
    (.ok (), { st1 with pendingRequests := mapDelete st1.pendingRequests requestId })

/-- `HumanLoopService.cleanupOldRequests(maxAgeHours)`: collects the pending
requests created before `now - maxAgeHours` hours and cancels each with the
reason string `"timeout - no response received"`; cancellation errors are
caught and ignored. -/
def cleanupOldRequests (st : HLState) (now : Nat) (maxAgeHours : Nat) : HLState :=
  let cutoffTime := now - maxAgeHours * 60 * 60 * 1000
  let requestsToCleanup := (st.pendingRequests.filter (fun p =>
    p.2.createdAt < cutoffTime && p.2.status = stPending)).map Prod.fst
  requestsToCleanup.foldl (fun s rid => (cancelPendingRequest s rid timeoutReason now).2) st

end HumanLoopService

namespace GiteaClient

/-- A per-comment response object pushed by `GiteaClient.parseHumanResponse`;
`approved` is only present on `approval` responses. -/
structure GResp where
  ty : JStr
  content : JStr
  approved : Bool := false
deriving DecidableEq, Repr

/-- The per-comment branch of `GiteaClient.parseHumanResponse(comments)`
(giteaClient.js): case-sensitive `startsWith` tests on the trimmed body, in
the order DECISION:, CODE:, GUIDANCE:, APPROVAL:, with no QUESTION: branch and
a `general` fallback. -/
def parseOneComment (bodyRaw : JStr) : GResp :=
  let body := jsTrim bodyRaw
  if jsStartsWith body DECISIONp then
    { ty := tyDecision, content := jsTrim (body.drop 9) }
  else if jsStartsWith body CODEp then
    { ty := tyCode, content := jsTrim (body.drop 5) }
  else if jsStartsWith body GUIDANCEp then
    { ty := tyGuidance, content := jsTrim (body.drop 9) }
  else if jsStartsWith body APPROVALp then
    let approval := jsTrim (body.drop 9)
    { ty := tyApproval, content := approval,
      approved := includes (jsToLower approval) YESp }
  else
    { ty := tyGeneral, content := body }

/-- `GiteaClient.parseHumanResponse(comments)`: one response per comment. -/
def parseHumanResponse (comments : List JStr) : List GResp :=
  comments.map parseOneComment

end GiteaClient

namespace AgentService

/-- Lazy capture of the regex fragment `(.+?)(?=PROCEED:|$)` under the `s` and
`i` flags: at least one character, extended one character at a time until the
case-insensitive lookahead `PROCEED:` matches or the end of input is
reached. -/
def captureUntilProceed (c : Char) (rest : JStr) : JStr :=
  c :: (if ciPrefix PROCEEDp rest then []
        else
          match rest with
          | [] => []
          | d :: rest2 => captureUntilProceed d rest2)

/-- The regex `/APPROVAL:\s*(Yes|No)/i` of `AgentService.parseVerification`,
reduced to whether it matches and which alternative the group took: the scan
tries every start position left to right; at a case-insensitive `APPROVAL:`
it skips the whitespace run and tests `Yes` before `No` (backtracking into
`\s*` cannot help, since neither alternative starts with whitespace). -/
def approvalScan (s : JStr) : Option Bool :=
  match s with
  | [] => none
  | _ :: rest =>
    if ciPrefix APPROVALp s then
      let after := (s.drop 9).dropWhile isWS
      if ciPrefix YESp after then some true
      else if ciPrefix NOp after then some false
      else approvalScan rest
    else approvalScan rest

/-- The regex `/FEEDBACK:\s*(.+?)(?=PROCEED:|$)/is`, reduced to the captured
group: after a case-insensitive `FEEDBACK:`, the whitespace run is consumed
and the lazy group captures up to the next case-insensitive `PROCEED:` or the
end of input. When only whitespace follows `FEEDBACK:`, `\s*` backtracks by
one character so that `.+?` can consume it — the group is then that single
whitespace character, which the caller trims to the empty string. -/
def feedbackScan (s : JStr) : Option JStr :=
  match s with
  | [] => none
  | _ :: rest =>
    if ciPrefix FEEDBACKp s then
      let after := s.drop 9
      match after.dropWhile isWS with
      | c :: r2 => some (captureUntilProceed c r2)
      | [] => if after.isEmpty then feedbackScan rest else some [after.getLastD ' ']
    else feedbackScan rest

/-- The regex `/PROCEED:\s*(.+?)$/is`, reduced to the captured group: the lazy
group grows until `$`, which only matches at the very end of the input, so it
captures everything after the whitespace run. -/
def proceedScan (s : JStr) : Option JStr :=
  match s with
  | [] => none
  | _ :: rest =>
    if ciPrefix PROCEEDp s then
      let after := s.drop 8
      match after.dropWhile isWS with
      | c :: r2 => some (c :: r2)
      | [] => if after.isEmpty then proceedScan rest else some [after.getLastD ' ']
    else proceedScan rest

/-- The result object of `AgentService.parseVerification`. -/
structure Verification where
  approved : Bool
  feedback : JStr
  instructions : JStr
deriving DecidableEq, Repr

/-- `AgentService.parseVerification(content)` (part_002): `approved` is true
exactly when the approval regex matched with group `Yes` (a failed match or a
`No` group both yield false); `feedback` and `instructions` are the trimmed
captures of their regexes, empty when unmatched. -/
def parseVerification (content : JStr) : Verification :=
  { approved := (approvalScan content).getD false,
    feedback := match feedbackScan content with
      | some cap => jsTrim cap
      | none => [],
    instructions := match proceedScan content with
      | some cap => jsTrim cap
      | none => [] }

end AgentService

namespace AgentService

/-- Modelled from the spec: `developmentWorkflow.continueAfterVerification` is
called by `AgentService.processVerificationResponse` but is defined nowhere
under src/ (only its call sites exist). Per the spec, an approved verification
advances the task to `branch_creation`. -/
def continueAfterVerification (taskId : JStr) : JStr × List Event :=
  (stBranchCreation,
   [Event.taskStatusUpdated taskId stBranchCreation, Event.branchCreated taskId])

/-- Modelled from the spec: `developmentWorkflow.continueAfterClarification`
is called by `AgentService.processClarificationResponse` but is defined
nowhere under src/. Per the spec, the resolved answers are merged and the task
advances to `implementation_planning`. -/
def continueAfterClarification (taskId : JStr) : JStr × List Event :=
  (stImplementationPlanning,
   [Event.taskStatusUpdated taskId stImplementationPlanning])

/-- `AgentService.reviseImplementationPlan(agent, feedback)` (part_002):
queries the agent with a revision prompt built from the current plan and the
feedback text (the plan is regenerated wholesale, not merged), then calls
`developmentWorkflow.requestOutcomeVerification` again, which files a new
verification issue and sets the task status back to `awaiting_verification`. -/
def reviseImplementationPlan (taskId fullPlan feedback : JStr) : JStr × List Event :=
  (stAwaitingVerification,
   [Event.planRegenerated fullPlan feedback,
    Event.verificationRequested taskId,
    Event.taskStatusUpdated taskId stAwaitingVerification])

/-- `AgentService.processVerificationResponse(agent, response)` (part_002):
parses the response content with `parseVerification` and either continues
after verification or revises the implementation plan with the parsed
feedback. -/
def processVerificationResponse (taskId fullPlan content : JStr) : JStr × List Event :=
  let verification := parseVerification content
  if verification.approved then continueAfterVerification taskId
  else reviseImplementationPlan taskId fullPlan verification.feedback

/-- `AgentService.processHumanResponse(agentId, response)` (part_002): after
appending the response to the conversation history, dispatches on
`response.type`, handling only the literal names `clarification`,
`verification` and `review_feedback`. Any other type — including every type
name `HumanLoopService.parseHumanResponse` produces (`decision`, `code`,
`guidance`, `approval`, `question`, `general`) — matches no branch: no
workflow continuation runs and the agent merely resumes with status
`working`. The first component of the result is the task's stage after the
call, given its stage before the call. -/
def processHumanResponse (taskId stage0 fullPlan ty content : JStr) :
    JStr × List Event :=
  if ty = tyClarification then continueAfterClarification taskId
  else if ty = tyVerification then processVerificationResponse taskId fullPlan content
  else if ty = tyReviewFeedback then (stage0, [Event.reviewFeedbackHandled taskId])
  else (stage0, [])

/-- The resolution path for a human response arriving at a checkpoint:
`HumanLoopService.processHumanResponse` parses the comment body with
`HumanLoopService.parseHumanResponse` and forwards `type` and `content` to
`AgentService.processHumanResponse` (specializedAgents.js lines 788-796).
Returns the task's stage after dispatch and the emitted events. -/
def resolveAtStage (taskId stage0 fullPlan commentBody : JStr) : JStr × List Event :=
  let parsed := HumanLoopService.parseHumanResponse commentBody
  processHumanResponse taskId stage0 fullPlan parsed.ty parsed.content

end AgentService

namespace DevelopmentWorkflow

/-- An `ImplementationPlan` as assembled by
`DevelopmentWorkflow.parseImplementationPlan` (devContainerService.js): the
extracted sections plus the full plan text. -/
structure Plan where
  approach : JStr := []
  files : JStr := []
  steps : JStr := []
  testing : JStr := []
  risks : JStr := []
  outcome : JStr := []
  fullPlan : JStr := []
deriving DecidableEq, Repr

/-- The task fields `executeWorkflow` and `shouldVerifyOutcome` read. -/
structure WTask where
  id : JStr
  description : JStr
deriving DecidableEq, Repr

/-- The `complexityIndicators` list of
`DevelopmentWorkflow.shouldVerifyOutcome`. -/
def complexityIndicators : List JStr :=
  [(r"architecture").data, (r"database").data, (r"api").data, (r"security").data,
   (r"performance").data, (r"breaking change").data, (r"migration").data,
   (r"refactor").data, (r"integration").data]

/-- `DevelopmentWorkflow.shouldVerifyOutcome(plan, task)`
(devContainerService.js lines 837-853): verification is required when some
complexity indicator occurs in the lowercased task description or plan text,
or the risks section is a nonempty string longer than 50 characters, or the
files section is a nonempty string with more than 3 newline-separated
lines. -/
def shouldVerifyOutcome (plan : Plan) (task : WTask) : Bool :=
  let isComplex := complexityIndicators.any (fun indicator =>
    includes (jsToLower task.description) indicator ||
    includes (jsToLower plan.fullPlan) indicator)
  let hasRisks := !plan.risks.isEmpty && plan.risks.length > 50
  let multipleFiles := !plan.files.isEmpty && (splitNl plan.files).length > 3
  isComplex || hasRisks || multipleFiles

/-- The commit message of `DevelopmentWorkflow.fixFailingTests`. -/
def testFixCommitMsg : JStr :=
  (r"fix: Update tests to match implementation changes").data

/-- The result of the external `npm test` execution. -/
structure TestResults where
  exitCode : Int := 0
  output : JStr := []
  error : JStr := []
deriving DecidableEq, Repr

/-- `DevelopmentWorkflow.fixFailingTests(agent, task, testResults)`
(devContainerService.js lines 1049-1079): invokes the agent implementation
capability once with a fix prompt containing the failure output and error
details, then stages and commits the result. The tests are not executed
here. -/
def fixFailingTests (testResults : TestResults) : List Event :=
  [Event.agentInvoked (testResults.output ++ testResults.error),
   Event.gitAddAll,
   Event.gitCommit testFixCommitMsg]

/-- `DevelopmentWorkflow.runTests(agent, task)` (devContainerService.js lines
1033-1047), with the result of the external `npm test` command supplied as a
parameter: when the exit code is nonzero, `fixFailingTests` runs once, and the
original `testResults` value is returned — the tests are never re-executed
after the fix. -/
def runTests (testResults : TestResults) : TestResults × List Event :=
  if testResults.exitCode ≠ 0 then
    (testResults, Event.testsExecuted :: fixFailingTests testResults)
  else
    (testResults, [Event.testsExecuted])

/-- The result object of `DevelopmentWorkflow.executeWorkflow`. -/
structure WorkflowResult where
  status : JStr
  step : JStr
deriving DecidableEq, Repr

/-- `DevelopmentWorkflow.executeWorkflow(agent, task)` (devContainerService.js
lines 651-698), with the external agent-capability results supplied as
parameters (whether requirements analysis requested clarification, the plan
the agent produced, and the external test result). When clarification is
needed the workflow stops at `awaiting_clarification`; otherwise, when
`shouldVerifyOutcome` holds, a verification issue is filed, the task status is
set to `awaiting_verification` and the workflow returns without creating a
branch; otherwise it proceeds through branch creation, implementation,
testing and pull-request creation to `awaiting_review`. -/
def executeWorkflow (task : WTask) (clarificationNeeded : Bool) (plan : Plan)
    (testResults : TestResults) : WorkflowResult × List Event :=
  if clarificationNeeded then
    ({ status := stAwaitingClarification, step := stepRequirementsAnalysis },
     [Event.clarificationRequested task.id])
  else if shouldVerifyOutcome plan task then
    ({ status := stAwaitingVerification, step := stepOutcomeVerification },
     [Event.verificationRequested task.id,
      Event.taskStatusUpdated task.id stAwaitingVerification])
  else
    ({ status := stAwaitingReview, step := stepPullRequestCreated },
     Event.branchCreated task.id ::
       Event.agentInvoked plan.fullPlan ::
       (runTests testResults).2 ++ [Event.prCreated task.id])

end DevelopmentWorkflow

/-! ### Basic facts about the string model -/

/-- `includes` decides substring containment. -/
theorem includes_iff_substring (s p : JStr) : includes s p = true ↔ p <:+: s := by
  induction s with
  | nil => simp [includes, List.isEmpty_iff, List.infix_nil]
  | cons c rest ih =>
    simp [includes, Bool.or_eq_true, List.isPrefixOf_iff_prefix, ih, List.infix_cons_iff]

theorem includes_of_startsWith (s p : JStr) (h : jsStartsWith s p = true) :
    includes s p = true := by
  rw [includes_iff_substring]
  exact (List.isPrefixOf_iff_prefix.mp h).isInfix

/-- Substring containment is preserved by character maps, hence in particular
by lowercasing. -/
theorem includes_map (f : Char → Char) (s p : JStr) (h : includes s p = true) :
    includes (s.map f) (p.map f) = true := by
  rw [includes_iff_substring] at h ⊢
  exact h.map f

theorem head_dropWhile_false (p : Char → Bool) (l : JStr) (c : Char) (t : JStr)
    (h : l.dropWhile p = c :: t) : p c = false := by
  induction l with
  | nil => simp at h
  | cons a rest ih =>
    by_cases hp : p a
    · rw [List.dropWhile_cons_of_pos hp] at h
      exact ih h
    · rw [List.dropWhile_cons_of_neg hp] at h
      cases h
      exact Bool.of_not_eq_true hp

theorem dropWhile_eq_self_of_head (p : Char → Bool) (l : JStr)
    (h : ∀ c t, l = c :: t → p c = false) : l.dropWhile p = l := by
  cases l with
  | nil => rfl
  | cons c t => rw [List.dropWhile_cons_of_neg (by simp [h c t rfl])]

/-- `jsTrim` produces the empty string on all-whitespace input. -/
theorem jsTrim_eq_nil_of_all_ws (s : JStr) (h : ∀ c ∈ s, isWS c = true) :
    jsTrim s = [] := by
  have h1 : trimStart s = [] := List.dropWhile_eq_nil_iff.mpr h
  simp [jsTrim, h1, trimEnd]

/-- `jsTrim` is idempotent. -/
theorem jsTrim_idem (s : JStr) : jsTrim (jsTrim s) = jsTrim s := by
  have hrev : (jsTrim s).reverse = (trimStart s).reverse.dropWhile isWS := by
    simp [jsTrim, trimEnd]
  have hlast : ∀ c t, (jsTrim s).reverse = c :: t → isWS c = false := by
    intro c t hct
    exact head_dropWhile_false isWS (trimStart s).reverse c t (hrev ▸ hct)
  have hhead : ∀ c t, jsTrim s = c :: t → isWS c = false := by
    intro c t hct
    have hpre : jsTrim s <+: trimStart s := by
      have hsfx : (jsTrim s).reverse <:+ (trimStart s).reverse := by
        rw [hrev]
        exact List.dropWhile_suffix isWS
      exact List.reverse_suffix.mp hsfx
    obtain ⟨u, hu⟩ := hpre
    have hstart : trimStart s = c :: (t ++ u) := by rw [← hu, hct]; simp
    exact head_dropWhile_false isWS s c (t ++ u) hstart
  have h1 : trimStart (jsTrim s) = jsTrim s :=
    dropWhile_eq_self_of_head isWS (jsTrim s) hhead
  have h2 : (jsTrim s).reverse.dropWhile isWS = (jsTrim s).reverse :=
    dropWhile_eq_self_of_head isWS (jsTrim s).reverse hlast
  calc jsTrim (jsTrim s) = trimEnd (trimStart (jsTrim s)) := rfl
    _ = trimEnd (jsTrim s) := by rw [show trimStart (jsTrim s) = jsTrim s from h1]
    _ = ((jsTrim s).reverse.dropWhile isWS).reverse := rfl
    _ = jsTrim s := by rw [h2]; simp

/-- Every character of the trimmed string occurs in the original. -/
theorem mem_of_mem_jsTrim (s : JStr) (c : Char) (h : c ∈ jsTrim s) : c ∈ s := by
  have h1 : List.Sublist (jsTrim s) (trimStart s) := by
    have h2 : List.Sublist ((trimStart s).reverse.dropWhile isWS) (trimStart s).reverse :=
      List.dropWhile_sublist isWS
    simpa [jsTrim, trimEnd] using h2.reverse
  exact ((h1.trans (List.dropWhile_sublist isWS)).mem h)

/-- The fuel-based digit list agrees with `Nat.digits` whenever the fuel
covers the number. -/
theorem digitsRevAux_eq_digits : ∀ fuel n, n ≤ fuel → digitsRevAux fuel n = Nat.digits 10 n := by
  intro fuel
  induction fuel with
  | zero =>
    intro n hn
    have h0 : n = 0 := Nat.le_zero.mp hn
    simp [h0, digitsRevAux]
  | succ f ih =>
    intro n hn
    match n with
    | 0 => simp [digitsRevAux]
    | m + 1 =>
      rw [digitsRevAux, ih ((m + 1) / 10) (by
        have hlt : (m + 1) / 10 < m + 1 := Nat.div_lt_self (Nat.succ_pos m) (by norm_num)
        omega)]
      rw [Nat.digits_def' (by norm_num) (Nat.succ_pos m)]

theorem digitChar_inj_lt10 : ∀ d < 10, ∀ e < 10, Nat.digitChar d = Nat.digitChar e → d = e := by
  decide

theorem map_digitChar_inj : ∀ l₁ l₂ : List Nat, (∀ x ∈ l₁, x < 10) → (∀ x ∈ l₂, x < 10) →
    l₁.map Nat.digitChar = l₂.map Nat.digitChar → l₁ = l₂ := by
  intro l₁
  induction l₁ with
  | nil =>
    intro l₂ _ _ h
    cases l₂ <;> simp_all
  | cons a t ih =>
    intro l₂ h1 h2 h
    cases l₂ with
    | nil => simp at h
    | cons b u =>
      simp only [List.map_cons, List.cons.injEq] at h
      have ha := digitChar_inj_lt10 a (h1 a (by simp)) b (h2 b (by simp)) h.1
      have ht := ih u (fun x hx => h1 x (by simp [hx])) (fun x hx => h2 x (by simp [hx])) h.2
      simp [ha, ht]

/-- Decimal rendering is injective: distinct timestamps yield distinct request
id suffixes. -/
theorem natToJStr_inj : Function.Injective natToJStr := by
  have key : ∀ m : Nat, m ≠ 0 →
      ((digitsRevAux m m).map Nat.digitChar).reverse = ['0'] → False := by
    intro m hm h
    rw [digitsRevAux_eq_digits m m le_rfl] at h
    have hmap : (Nat.digits 10 m).map Nat.digitChar = [(0 : Nat)].map Nat.digitChar := by
      have := congrArg List.reverse h
      simpa using this
    have hdg : Nat.digits 10 m = [0] :=
      map_digitChar_inj _ _ (fun x hx => Nat.digits_lt_base (by norm_num) hx)
        (by simp) hmap
    have : m = 0 := by
      have hof := Nat.ofDigits_digits 10 m
      rw [hdg] at hof
      simpa [Nat.ofDigits] using hof.symm
    exact hm this
  intro a b h
  unfold natToJStr at h
  by_cases ha : a = 0 <;> by_cases hb : b = 0
  · omega
  · rw [if_pos ha, if_neg hb] at h
    exact absurd (h.symm) (fun hh => key b hb hh)
  · rw [if_neg ha, if_pos hb] at h
    exact absurd h (fun hh => key a ha hh)
  · rw [if_neg ha, if_neg hb] at h
    rw [digitsRevAux_eq_digits a a le_rfl, digitsRevAux_eq_digits b b le_rfl] at h
    have hmap := List.reverse_injective h
    have hdg : Nat.digits 10 a = Nat.digits 10 b :=
      map_digitChar_inj _ _ (fun x hx => Nat.digits_lt_base (by norm_num) hx)
        (fun x hx => Nat.digits_lt_base (by norm_num) hx) hmap
    calc a = Nat.ofDigits 10 (Nat.digits 10 a) := (Nat.ofDigits_digits 10 a).symm
      _ = Nat.ofDigits 10 (Nat.digits 10 b) := by rw [hdg]
      _ = b := Nat.ofDigits_digits 10 b

/-! ### Facts about the JavaScript `Map` model -/

theorem mapGet_append_none {α : Type} (m₁ m₂ : List (JStr × α)) (k : JStr)
    (h : mapGet m₁ k = none) : mapGet (m₁ ++ m₂) k = mapGet m₂ k := by
  induction m₁ with
  | nil => rfl
  | cons p t ih =>
    unfold mapGet at h ⊢
    by_cases hp : p.1 = k
    · rw [List.find?_cons_of_pos _ (by simpa using hp)] at h
      rw [Option.map_some'] at h
      exact Option.noConfusion h
    · rw [List.find?_cons_of_neg _ (by simpa using hp)] at h
      rw [List.cons_append, List.find?_cons_of_neg _ (by simpa using hp)]
      exact ih h

theorem mapGet_append_some {α : Type} (m₁ m₂ : List (JStr × α)) (k : JStr) (v : α)
    (h : mapGet m₁ k = some v) : mapGet (m₁ ++ m₂) k = some v := by
  induction m₁ with
  | nil =>
    unfold mapGet at h
    rw [List.find?_nil, Option.map_none'] at h
    exact Option.noConfusion h
  | cons p t ih =>
    unfold mapGet at h ⊢
    by_cases hp : p.1 = k
    · rw [List.find?_cons_of_pos _ (by simpa using hp)] at h
      rw [List.cons_append, List.find?_cons_of_pos _ (by simpa using hp)]
      exact h
    · rw [List.find?_cons_of_neg _ (by simpa using hp)] at h
      rw [List.cons_append, List.find?_cons_of_neg _ (by simpa using hp)]
      exact ih h

theorem mapGet_map_subst_ne {α : Type} (m : List (JStr × α)) (k k' : JStr) (v : α)
    (h : k' ≠ k) :
    mapGet (m.map fun p => if p.1 = k then (k, v) else p) k' = mapGet m k' := by
  have hkk : ¬ (k = k') := fun hh => h hh.symm
  induction m with
  | nil => rfl
  | cons p t ih =>
    by_cases hp : p.1 = k
    · rw [List.map_cons, if_pos hp]
      unfold mapGet
      rw [List.find?_cons_of_neg _ (by simpa using hkk),
        List.find?_cons_of_neg _ (by simpa [hp] using hkk)]
      exact ih
    · rw [List.map_cons, if_neg hp]
      by_cases hp' : p.1 = k'
      · unfold mapGet
        rw [List.find?_cons_of_pos _ (by simpa using hp'),
          List.find?_cons_of_pos _ (by simpa using hp')]
      · unfold mapGet
        rw [List.find?_cons_of_neg _ (by simpa using hp'),
          List.find?_cons_of_neg _ (by simpa using hp')]
        exact ih

theorem mapGet_map_subst_self {α : Type} (m : List (JStr × α)) (k : JStr) (v : α)
    (h : m.any (fun p => p.1 = k) = true) :
    mapGet (m.map fun p => if p.1 = k then (k, v) else p) k = some v := by
  induction m with
  | nil => simp at h
  | cons p t ih =>
    by_cases hp : p.1 = k
    · rw [List.map_cons, if_pos hp]
      unfold mapGet
      rw [List.find?_cons_of_pos _ (by simp)]
      rfl
    · rw [List.map_cons, if_neg hp]
      unfold mapGet
      rw [List.find?_cons_of_neg _ (by simpa using hp)]
      have ht : t.any (fun p => p.1 = k) = true := by
        rw [List.any_cons] at h
        rcases Bool.or_eq_true_iff.mp h with h1 | h2
        · exact absurd (of_decide_eq_true h1) hp
        · exact h2
      exact ih ht

theorem mapGet_set_self {α : Type} (m : List (JStr × α)) (k : JStr) (v : α) :
    mapGet (mapSet m k v) k = some v := by
  unfold mapSet
  by_cases h : m.any (fun p => p.1 = k)
  · rw [if_pos h]
    exact mapGet_map_subst_self m k v h
  · rw [if_neg h]
    have hnone : mapGet m k = none := by
      unfold mapGet
      rw [Option.map_eq_none']
      refine List.find?_eq_none.mpr ?_
      intro x hx hdec
      exact h (List.any_eq_true.mpr ⟨x, hx, hdec⟩)
    rw [mapGet_append_none m _ k hnone]
    unfold mapGet
    rw [List.find?_cons_of_pos _ (by simp)]
    rfl

theorem mapGet_set_ne {α : Type} (m : List (JStr × α)) (k k' : JStr) (v : α)
    (h : k' ≠ k) : mapGet (mapSet m k v) k' = mapGet m k' := by
  have hkk : ¬ (k = k') := fun hh => h hh.symm
  unfold mapSet
  by_cases ha : m.any (fun p => p.1 = k)
  · rw [if_pos ha]
    exact mapGet_map_subst_ne m k k' v h
  · rw [if_neg ha]
    rcases hm : mapGet m k' with _ | w
    · rw [mapGet_append_none m _ k' hm]
      unfold mapGet
      rw [List.find?_cons_of_neg _ (by simpa using hkk)]
      rfl
    · exact mapGet_append_some m _ k' w hm

theorem mem_mapSet {α : Type} (m : List (JStr × α)) (k : JStr) (v : α)
    (p : JStr × α) (h : p ∈ mapSet m k v) : p = (k, v) ∨ (p ∈ m ∧ p.1 ≠ k) := by
  unfold mapSet at h
  by_cases ha : m.any (fun q => q.1 = k)
  · rw [if_pos ha] at h
    obtain ⟨q, hq, hqe⟩ := List.mem_map.mp h
    by_cases hqk : q.1 = k
    · left
      rw [if_pos hqk] at hqe
      exact hqe.symm
    · right
      rw [if_neg hqk] at hqe
      exact ⟨hqe ▸ hq, hqe ▸ hqk⟩
  · rw [if_neg ha] at h
    rcases List.mem_append.mp h with hm | hs
    · right
      refine ⟨hm, ?_⟩
      intro hk
      exact ha (List.any_eq_true.mpr ⟨p, hm, by simpa using hk⟩)
    · left
      simpa using hs

theorem mem_mapDelete {α : Type} (m : List (JStr × α)) (k : JStr) (p : JStr × α) :
    p ∈ mapDelete m k ↔ p ∈ m ∧ p.1 ≠ k := by
  unfold mapDelete
  rw [List.mem_filter]
  simp

theorem mapGet_delete_self {α : Type} (m : List (JStr × α)) (k : JStr) :
    mapGet (mapDelete m k) k = none := by
  unfold mapGet
  rw [Option.map_eq_none']
  rw [List.find?_eq_none]
  intro p hp
  have := ((mem_mapDelete m k p).mp hp).2
  simpa using this

theorem mapGet_delete_ne {α : Type} (m : List (JStr × α)) (k k' : JStr)
    (h : k' ≠ k) : mapGet (mapDelete m k) k' = mapGet m k' := by
  induction m with
  | nil => rfl
  | cons p t ih =>
    unfold mapDelete at *
    by_cases hp : p.1 = k
    · rw [List.filter_cons_of_neg (by simpa using hp)]
      unfold mapGet
      rw [List.find?_cons_of_neg _ (by simp [hp]; exact fun hh => h hh.symm)]
      exact ih
    · rw [List.filter_cons_of_pos (by simpa using hp)]
      by_cases hp' : p.1 = k'
      · unfold mapGet
        rw [List.find?_cons_of_pos _ (by simpa using hp'),
          List.find?_cons_of_pos _ (by simpa using hp')]
      · unfold mapGet
        rw [List.find?_cons_of_neg _ (by simpa using hp'),
          List.find?_cons_of_neg _ (by simpa using hp')]
        exact ih

/-! ### C1: requestHumanInput and the at-most-one-pending claim -/

/-- C1 counterexample: `requestHumanInput` is not idempotent. Starting from an
empty service state, two calls for the same (taskId, agentId) pair before any
resolution leave TWO pending requests with distinct ids and post TWO external
issues, refuting the claim that the second call returns the same request id
and posts only one message. -/
theorem requestHumanInput_not_idempotent_cex :
    ((HumanLoopService.requestHumanInput
        (HumanLoopService.requestHumanInput {} (r"t1").data (r"a1").data 100).2
        (r"t1").data (r"a1").data 101).2.pendingRequests.length = 2) ∧
    ((HumanLoopService.requestHumanInput
        (HumanLoopService.requestHumanInput {} (r"t1").data (r"a1").data 100).2
        (r"t1").data (r"a1").data 101).2.pendingRequests.map (fun p => p.2.status)
      = [stPending, stPending]) ∧
    ((HumanLoopService.requestHumanInput
        (HumanLoopService.requestHumanInput {} (r"t1").data (r"a1").data 100).2
        (r"t1").data (r"a1").data 101).2.pendingRequests.map (fun p => p.2.id)
      = [(r"t1_100").data, (r"t1_101").data]) ∧
    ((HumanLoopService.requestHumanInput
        (HumanLoopService.requestHumanInput {} (r"t1").data (r"a1").data 100).2
        (r"t1").data (r"a1").data 101).2.events.length = 2) := by
  decide

/-- C1 (amended): each call of `requestHumanInput` posts a fresh issue and
stores a fresh pending request keyed `taskId_timestamp`; a second call for
the same (taskId, agentId) pair at a different timestamp adds a SECOND
pending request with a distinct id and posts a second external message, so
any number of pending requests may coexist per pair. -/
theorem requestHumanInput_duplicates_pending (st : HumanLoopService.HLState)
    (taskId agentId : JStr) (t1 t2 : Nat) (h : t1 ≠ t2) :
    (taskId ++ '_' :: natToJStr t1) ≠ (taskId ++ '_' :: natToJStr t2) ∧
    (∃ q1, mapGet (HumanLoopService.requestHumanInput
        (HumanLoopService.requestHumanInput st taskId agentId t1).2
        taskId agentId t2).2.pendingRequests (taskId ++ '_' :: natToJStr t1) = some q1 ∧
      q1.status = stPending ∧ q1.id = taskId ++ '_' :: natToJStr t1) ∧
    (∃ q2, mapGet (HumanLoopService.requestHumanInput
        (HumanLoopService.requestHumanInput st taskId agentId t1).2
        taskId agentId t2).2.pendingRequests (taskId ++ '_' :: natToJStr t2) = some q2 ∧
      q2.status = stPending ∧ q2.id = taskId ++ '_' :: natToJStr t2) ∧
    (HumanLoopService.requestHumanInput
        (HumanLoopService.requestHumanInput st taskId agentId t1).2
        taskId agentId t2).2.events
      = st.events ++ [Event.issueCreated taskId st.nextIssueNumber,
          Event.issueCreated taskId (st.nextIssueNumber + 1)] := by
  have hk : (taskId ++ '_' :: natToJStr t1) ≠ (taskId ++ '_' :: natToJStr t2) := by
    intro heq
    have h2 := List.append_cancel_left heq
    have h3 : natToJStr t1 = natToJStr t2 := by
      simpa using h2
    exact h (natToJStr_inj h3)
  refine ⟨hk, ?_, ?_, ?_⟩
  · have hget : mapGet (HumanLoopService.requestHumanInput
        (HumanLoopService.requestHumanInput st taskId agentId t1).2
        taskId agentId t2).2.pendingRequests (taskId ++ '_' :: natToJStr t1) = some
      { id := taskId ++ '_' :: natToJStr t1, taskId := taskId, agentId := agentId,
        issueNumber := st.nextIssueNumber, createdAt := t1, status := stPending } := by
      simp only [HumanLoopService.requestHumanInput]
      rw [mapGet_set_ne _ _ _ _ hk, mapGet_set_self]
    exact ⟨_, hget, rfl, rfl⟩
  · have hget : mapGet (HumanLoopService.requestHumanInput
        (HumanLoopService.requestHumanInput st taskId agentId t1).2
        taskId agentId t2).2.pendingRequests (taskId ++ '_' :: natToJStr t2) = some
      { id := taskId ++ '_' :: natToJStr t2, taskId := taskId, agentId := agentId,
        issueNumber := st.nextIssueNumber + 1, createdAt := t2, status := stPending } := by
      simp only [HumanLoopService.requestHumanInput]
      rw [mapGet_set_self]
    exact ⟨_, hget, rfl, rfl⟩
  · simp [HumanLoopService.requestHumanInput]

/-- Witness for the C1 amended theorem at a concrete state and timestamps. -/
theorem requestHumanInput_duplicates_pending_witness :
    (100 : Nat) ≠ 101 ∧
    (((r"t1").data ++ '_' :: natToJStr 100) ≠ ((r"t1").data ++ '_' :: natToJStr 101) ∧
     (∃ q1, mapGet (HumanLoopService.requestHumanInput
         (HumanLoopService.requestHumanInput {} (r"t1").data (r"a1").data 100).2
         (r"t1").data (r"a1").data 101).2.pendingRequests
         ((r"t1").data ++ '_' :: natToJStr 100) = some q1 ∧
       q1.status = stPending ∧ q1.id = (r"t1").data ++ '_' :: natToJStr 100) ∧
     (∃ q2, mapGet (HumanLoopService.requestHumanInput
         (HumanLoopService.requestHumanInput {} (r"t1").data (r"a1").data 100).2
         (r"t1").data (r"a1").data 101).2.pendingRequests
         ((r"t1").data ++ '_' :: natToJStr 101) = some q2 ∧
       q2.status = stPending ∧ q2.id = (r"t1").data ++ '_' :: natToJStr 101) ∧
     (HumanLoopService.requestHumanInput
         (HumanLoopService.requestHumanInput {} (r"t1").data (r"a1").data 100).2
         (r"t1").data (r"a1").data 101).2.events
       = HumanLoopService.HLState.events {} ++
           [Event.issueCreated (r"t1").data (HumanLoopService.HLState.nextIssueNumber {}),
            Event.issueCreated (r"t1").data (HumanLoopService.HLState.nextIssueNumber {} + 1)]) :=
  ⟨by decide,
   requestHumanInput_duplicates_pending {} (r"t1").data (r"a1").data 100 101 (by decide)⟩

/-! ### C3: double resolution of the same pending request -/

deriving instance DecidableEq for Except

/-- `processHumanResponse` with no matching pending request logs a warning
and returns `null`, leaving the state untouched. -/
theorem processHumanResponse_of_none (st : HumanLoopService.HLState)
    (agents : List JStr) (taskId agentId body : JStr) (now : Nat)
    (h : HumanLoopService.findPendingRequest st taskId agentId = none) :
    HumanLoopService.processHumanResponse st agents taskId agentId body now
      = (Except.ok none, st) := by
  simp only [HumanLoopService.processHumanResponse, h]

/-- C3 counterexample: after `processHumanResponse` succeeds for a pending
request, a second call for the same (taskId, agentId) returns `null`
(modelled `.ok none`) with the state unchanged — it does not fail with a
`NotFoundError` (no such error exists anywhere in the code path: the miss is
logged as a warning and `null` is returned). -/
theorem processHumanResponse_no_notfounderror_cex :
    ((HumanLoopService.processHumanResponse
        (HumanLoopService.requestHumanInput {} (r"t1").data (r"a1").data 100).2
        [(r"a1").data] (r"t1").data (r"a1").data (r"APPROVAL: Yes").data 200).1
      = Except.ok (some (HumanLoopService.parseHumanResponse (r"APPROVAL: Yes").data))) ∧
    (HumanLoopService.processHumanResponse
        (HumanLoopService.processHumanResponse
          (HumanLoopService.requestHumanInput {} (r"t1").data (r"a1").data 100).2
          [(r"a1").data] (r"t1").data (r"a1").data (r"APPROVAL: Yes").data 200).2
        [(r"a1").data] (r"t1").data (r"a1").data (r"APPROVAL: Yes").data 300
      = (Except.ok none,
         (HumanLoopService.processHumanResponse
           (HumanLoopService.requestHumanInput {} (r"t1").data (r"a1").data 100).2
           [(r"a1").data] (r"t1").data (r"a1").data (r"APPROVAL: Yes").data 200).2)) := by
  decide

/-- C3 (amended): when the state holds at most one pending request for
(taskId, agentId), keyed by its own id, and the agent is known, a successful
`processHumanResponse` removes the request, and a second call for the same
pair returns `null` (modelled `.ok none`) and performs no state mutation at
all — the state, including the resolved request's removal, is returned
unchanged. The source never raises a `NotFoundError`. -/
theorem processHumanResponse_second_resolve_noop
    (st : HumanLoopService.HLState) (agents : List JStr)
    (taskId agentId body body2 : JStr) (now now2 : Nat)
    (req : HumanLoopService.Request)
    (hfound : HumanLoopService.findPendingRequest st taskId agentId = some req)
    (hwf : ∀ p ∈ st.pendingRequests, p.1 = p.2.id)
    (honce : ∀ p ∈ st.pendingRequests, ∀ q ∈ st.pendingRequests,
      (p.2.taskId = taskId ∧ p.2.agentId = agentId ∧ p.2.status = stPending) →
      (q.2.taskId = taskId ∧ q.2.agentId = agentId ∧ q.2.status = stPending) → p = q)
    (hagent : agents.contains agentId = true) :
    ((HumanLoopService.processHumanResponse st agents taskId agentId body now).1
      = Except.ok (some (HumanLoopService.parseHumanResponse body))) ∧
    HumanLoopService.processHumanResponse
      (HumanLoopService.processHumanResponse st agents taskId agentId body now).2
      agents taskId agentId body2 now2
      = (Except.ok none,
         (HumanLoopService.processHumanResponse st agents taskId agentId body now).2) := by
  obtain ⟨e, hfind, he⟩ := Option.map_eq_some'.mp hfound
  have hmem : e ∈ st.pendingRequests := List.mem_of_find?_eq_some hfind
  have hpred := List.find?_some hfind
  have hematch : e.2.taskId = taskId ∧ e.2.agentId = agentId ∧ e.2.status = stPending := by
    simpa [Bool.and_eq_true, decide_eq_true_eq, and_assoc] using hpred
  have hekey : e.1 = req.id := by
    rw [hwf e hmem, he]
  have hnone : HumanLoopService.findPendingRequest
      (HumanLoopService.processHumanResponse st agents taskId agentId body now).2
      taskId agentId = none := by
    simp only [HumanLoopService.processHumanResponse, hfound, hagent, if_true]
    unfold HumanLoopService.findPendingRequest
    rw [Option.map_eq_none']
    rw [List.find?_eq_none]
    intro p hp hpmatch
    have hpmatch' : p.2.taskId = taskId ∧ p.2.agentId = agentId ∧ p.2.status = stPending := by
      simpa [Bool.and_eq_true, decide_eq_true_eq, and_assoc] using hpmatch
    have h1 := (mem_mapDelete _ _ p).mp hp
    rcases mem_mapSet _ _ _ p h1.1 with hvp | ⟨hpm, _⟩
    · exact h1.2 (by rw [hvp])
    · have hpe : p = e := honce p hpm e hmem hpmatch' hematch
      exact h1.2 (by rw [hpe, hekey])
  constructor
  · simp only [HumanLoopService.processHumanResponse, hfound, hagent, if_true]
  · exact processHumanResponse_of_none _ agents taskId agentId body2 now2 hnone

/-- Witness for the C3 amended theorem at a concrete resolved request. -/
theorem processHumanResponse_second_resolve_noop_witness :
    (List.contains [(r"a1").data] (r"a1").data = true) ∧
    (((HumanLoopService.processHumanResponse
        (HumanLoopService.requestHumanInput {} (r"t1").data (r"a1").data 100).2
        [(r"a1").data] (r"t1").data (r"a1").data (r"GUIDANCE: go ahead").data 200).1
      = Except.ok (some (HumanLoopService.parseHumanResponse (r"GUIDANCE: go ahead").data))) ∧
    HumanLoopService.processHumanResponse
      (HumanLoopService.processHumanResponse
        (HumanLoopService.requestHumanInput {} (r"t1").data (r"a1").data 100).2
        [(r"a1").data] (r"t1").data (r"a1").data (r"GUIDANCE: go ahead").data 200).2
      [(r"a1").data] (r"t1").data (r"a1").data (r"GUIDANCE: later").data 300
      = (Except.ok none,
         (HumanLoopService.processHumanResponse
           (HumanLoopService.requestHumanInput {} (r"t1").data (r"a1").data 100).2
           [(r"a1").data] (r"t1").data (r"a1").data (r"GUIDANCE: go ahead").data 200).2)) :=
  ⟨by decide,
   processHumanResponse_second_resolve_noop
     (HumanLoopService.requestHumanInput {} (r"t1").data (r"a1").data 100).2
     [(r"a1").data] (r"t1").data (r"a1").data
     (r"GUIDANCE: go ahead").data (r"GUIDANCE: later").data 200 300
     { id := (r"t1_100").data, taskId := (r"t1").data, agentId := (r"a1").data,
       issueNumber := 1, createdAt := 100, status := stPending }
     (by decide) (by decide) (by decide) (by decide)⟩

/-! ### C4/C5: a declarative reformulation of the parser's capture rule -/

/-- A line whose trimmed form starts with the given prefix (such a line
(re)starts capture). -/
def keyLine (key l : JStr) : Bool := jsStartsWith (jsTrim l) key

/-- A line that stops an active capture: its trimmed form matches `^[A-Z]+:`
(any run of capitals and a colon, recognised or not) and it does not itself
start the prefix. -/
def stopLine (key l : JStr) : Bool := startsUpperColon (jsTrim l) && !keyLine key l

/-- The trimmed text a nonblank captured line contributes. -/
def lineWord (l : JStr) : Option JStr :=
  if (jsTrim l).isEmpty then none else some (jsTrim l)

/-- Captured words joined, each preceded by a single space. -/
def joinSp (ws : List JStr) : JStr := (ws.map (fun w => ' ' :: w)).flatten

/-- The content a prefix line contributes: the rest of the line after the
first occurrence of the prefix, trimmed. -/
def afterKey (key l : JStr) : JStr :=
  jsTrim (substringFrom l (jsIndexOf l key + (key.length : Int)))

/-- Declarative capture: the zone extends to the first stopping line; within
the zone, capture restarts at the LAST prefix line; the result is that prefix
line's remainder followed by the trimmed nonblank lines after it, or, if no
prefix line occurs in the zone, the accumulator followed by all nonblank
lines of the zone. -/
def captureSpec (key : JStr) (acc : JStr) (lines : List JStr) : JStr :=
  let zone := lines.takeWhile (fun l => !stopLine key l)
  let rk := zone.reverse.dropWhile (fun l => !keyLine key l)
  if rk.isEmpty then acc ++ joinSp (zone.filterMap lineWord)
  else
    afterKey key (rk.headD []) ++
      joinSp ((zone.reverse.takeWhile (fun l => !keyLine key l)).reverse.filterMap lineWord)

/-- Declarative extraction: skip to the first line starting the prefix (empty
result when there is none), then capture through the zone and trim. -/
def extractSpec (key text : JStr) : JStr :=
  let ls := (splitNl text).dropWhile (fun l => !keyLine key l)
  if ls.isEmpty then []
  else jsTrim (captureSpec key (afterKey key (ls.headD [])) ls.tail)

/- `takeWhile`/`dropWhile` over an append, split by whether the first block is
fully satisfied. -/

theorem dropWhile_append_eq_nil {α : Type} (p : α → Bool) (l1 l2 : List α)
    (h : l1.dropWhile p = []) : (l1 ++ l2).dropWhile p = l2.dropWhile p := by
  induction l1 with
  | nil => rfl
  | cons a t ih =>
    by_cases hp : p a
    · rw [List.dropWhile_cons_of_pos hp] at h
      rw [List.cons_append, List.dropWhile_cons_of_pos hp]
      exact ih h
    · rw [List.dropWhile_cons_of_neg hp] at h
      exact absurd h (by simp)

theorem dropWhile_append_ne_nil {α : Type} (p : α → Bool) (l1 l2 : List α)
    (h : l1.dropWhile p ≠ []) : (l1 ++ l2).dropWhile p = l1.dropWhile p ++ l2 := by
  induction l1 with
  | nil => exact absurd rfl h
  | cons a t ih =>
    by_cases hp : p a
    · rw [List.dropWhile_cons_of_pos hp] at h
      rw [List.cons_append, List.dropWhile_cons_of_pos hp, ih h,
        List.dropWhile_cons_of_pos hp]
    · rw [List.cons_append, List.dropWhile_cons_of_neg hp,
        List.dropWhile_cons_of_neg hp, List.cons_append]

theorem takeWhile_append_eq_nil {α : Type} (p : α → Bool) (l1 l2 : List α)
    (h : l1.dropWhile p = []) : (l1 ++ l2).takeWhile p = l1 ++ l2.takeWhile p := by
  induction l1 with
  | nil => rfl
  | cons a t ih =>
    by_cases hp : p a
    · rw [List.dropWhile_cons_of_pos hp] at h
      rw [List.cons_append, List.takeWhile_cons_of_pos hp, ih h, List.cons_append]
    · rw [List.dropWhile_cons_of_neg hp] at h
      exact absurd h (by simp)

theorem takeWhile_append_ne_nil {α : Type} (p : α → Bool) (l1 l2 : List α)
    (h : l1.dropWhile p ≠ []) : (l1 ++ l2).takeWhile p = l1.takeWhile p := by
  induction l1 with
  | nil => exact absurd rfl h
  | cons a t ih =>
    by_cases hp : p a
    · rw [List.dropWhile_cons_of_pos hp] at h
      rw [List.cons_append, List.takeWhile_cons_of_pos hp, ih h,
        List.takeWhile_cons_of_pos hp]
    · rw [List.cons_append, List.takeWhile_cons_of_neg hp, List.takeWhile_cons_of_neg hp]

theorem captureSpec_nil (key acc : JStr) : captureSpec key acc [] = acc := by
  simp [captureSpec, joinSp]

theorem captureSpec_cons_stop (key acc line : JStr) (rest : List JStr)
    (hs : stopLine key line = true) :
    captureSpec key acc (line :: rest) = acc := by
  unfold captureSpec
  rw [List.takeWhile_cons_of_neg (by simp [hs])]
  simp [joinSp]

theorem captureSpec_cons_key (key acc line : JStr) (rest : List JStr)
    (hk : keyLine key line = true) :
    captureSpec key acc (line :: rest) = captureSpec key (afterKey key line) rest := by
  have hs : stopLine key line = false := by simp [stopLine, hk]
  simp only [captureSpec]
  rw [List.takeWhile_cons_of_pos (by simp [hs]), List.reverse_cons]
  by_cases hnil : (rest.takeWhile (fun l => !stopLine key l)).reverse.dropWhile
      (fun l => !keyLine key l) = []
  · rw [dropWhile_append_eq_nil _ _ _ hnil, List.dropWhile_cons_of_neg (by simp [hk]),
      takeWhile_append_eq_nil _ _ _ hnil, List.takeWhile_cons_of_neg (by simp [hk]),
      hnil]
    simp
  · rw [dropWhile_append_ne_nil _ _ _ hnil, takeWhile_append_ne_nil _ _ _ hnil]
    rcases hd : (rest.takeWhile (fun l => !stopLine key l)).reverse.dropWhile
        (fun l => !keyLine key l) with _ | ⟨lk, tl⟩
    · exact absurd hd hnil
    · simp

theorem captureSpec_cons_word (key acc line : JStr) (rest : List JStr)
    (hk : keyLine key line = false) (hs : stopLine key line = false)
    (hw : (jsTrim line).isEmpty = false) :
    captureSpec key acc (line :: rest) =
      captureSpec key (acc ++ ' ' :: jsTrim line) rest := by
  simp only [captureSpec]
  rw [List.takeWhile_cons_of_pos (by simp [hs]), List.reverse_cons]
  by_cases hnil : (rest.takeWhile (fun l => !stopLine key l)).reverse.dropWhile
      (fun l => !keyLine key l) = []
  · rw [dropWhile_append_eq_nil _ _ _ hnil, List.dropWhile_cons_of_pos (by simp [hk]),
      List.dropWhile_nil, hnil]
    simp [joinSp, lineWord, hw, List.filterMap_cons, List.append_assoc]
  · rw [dropWhile_append_ne_nil _ _ _ hnil, takeWhile_append_ne_nil _ _ _ hnil]
    rcases hd : (rest.takeWhile (fun l => !stopLine key l)).reverse.dropWhile
        (fun l => !keyLine key l) with _ | ⟨lk, tl⟩
    · exact absurd hd hnil
    · simp

theorem captureSpec_cons_blank (key acc line : JStr) (rest : List JStr)
    (hk : keyLine key line = false) (hs : stopLine key line = false)
    (hw : (jsTrim line).isEmpty = true) :
    captureSpec key acc (line :: rest) = captureSpec key acc rest := by
  simp only [captureSpec]
  rw [List.takeWhile_cons_of_pos (by simp [hs]), List.reverse_cons]
  by_cases hnil : (rest.takeWhile (fun l => !stopLine key l)).reverse.dropWhile
      (fun l => !keyLine key l) = []
  · rw [dropWhile_append_eq_nil _ _ _ hnil, List.dropWhile_cons_of_pos (by simp [hk]),
      List.dropWhile_nil, hnil]
    simp [lineWord, hw, List.filterMap_cons]
  · rw [dropWhile_append_ne_nil _ _ _ hnil, takeWhile_append_ne_nil _ _ _ hnil]
    rcases hd : (rest.takeWhile (fun l => !stopLine key l)).reverse.dropWhile
        (fun l => !keyLine key l) with _ | ⟨lk, tl⟩
    · exact absurd hd hnil
    · simp

/-- The imperative capture loop (with capturing already active) computes the
declarative capture. -/
theorem extractLoop_true_eq (key : JStr) :
    ∀ (lines : List JStr) (acc : JStr),
      HumanLoopService.extractLoop key lines acc true = captureSpec key acc lines := by
  intro lines
  induction lines with
  | nil =>
    intro acc
    rw [captureSpec_nil]
    rfl
  | cons line rest ih =>
    intro acc
    by_cases hk : keyLine key line = true
    · rw [HumanLoopService.extractLoop, if_pos (by simpa [keyLine] using hk),
        captureSpec_cons_key key acc line rest hk]
      exact ih _
    · have hk' : keyLine key line = false := by simpa using hk
      by_cases hs : startsUpperColon (jsTrim line) = true
      · have hstop : stopLine key line = true := by simp [stopLine, hs, hk']
        rw [HumanLoopService.extractLoop, if_neg (by simpa [keyLine] using hk),
          if_pos (by simp [hs]), captureSpec_cons_stop key acc line rest hstop]
      · have hs' : startsUpperColon (jsTrim line) = false := by simpa using hs
        have hstop : stopLine key line = false := by simp [stopLine, hs']
        by_cases hw : (jsTrim line).isEmpty = true
        · rw [HumanLoopService.extractLoop, if_neg (by simpa [keyLine] using hk),
            if_neg (by simp [hs']), if_neg (by simp [hw]),
            captureSpec_cons_blank key acc line rest hk' hstop hw]
          exact ih _
        · have hw' : (jsTrim line).isEmpty = false := by simpa using hw
          rw [HumanLoopService.extractLoop, if_neg (by simpa [keyLine] using hk),
            if_neg (by simp [hs']), if_pos (by simp [hw']),
            captureSpec_cons_word key acc line rest hk' hstop hw']
          exact ih _

/-- The imperative capture loop before any prefix line has been seen skips to
the first prefix line. -/
theorem extractLoop_false_eq (key c : JStr) :
    ∀ lines : List JStr,
      HumanLoopService.extractLoop key lines c false =
        (if h : (lines.dropWhile (fun l => !keyLine key l)).isEmpty then c
         else captureSpec key
           (afterKey key ((lines.dropWhile (fun l => !keyLine key l)).headD []))
           (lines.dropWhile (fun l => !keyLine key l)).tail) := by
  intro lines
  induction lines with
  | nil => rfl
  | cons line rest ih =>
    by_cases hk : keyLine key line = true
    · rw [HumanLoopService.extractLoop, if_pos (by simpa [keyLine] using hk),
        List.dropWhile_cons_of_neg (by simp [hk])]
      simp only [List.isEmpty_cons, List.headD_cons, List.tail_cons, dite_false,
        Bool.false_eq_true]
      exact extractLoop_true_eq key rest (afterKey key line)
    · have hk' : keyLine key line = false := by simpa using hk
      rw [HumanLoopService.extractLoop, if_neg (by simpa [keyLine] using hk),
        List.dropWhile_cons_of_pos (by simp [hk'])]
      rw [if_neg (by simp [Bool.and_eq_true]), if_neg (by simp [Bool.and_eq_true])]
      exact ih

/-- `extractStructuredContent` computes the declarative extraction
`extractSpec`. -/
theorem extractStructuredContent_eq_spec (text key : JStr) :
    HumanLoopService.extractStructuredContent text key = extractSpec key text := by
  unfold HumanLoopService.extractStructuredContent extractSpec
  rw [extractLoop_false_eq]
  by_cases h : ((splitNl text).dropWhile (fun l => !keyLine key l)).isEmpty
  · rw [dif_pos h, if_pos h]
    rfl
  · rw [dif_neg h, if_neg h]

/-- The fixed priority order of structured prefixes, paired with the response
type each one yields. -/
def priorityOrder : List (JStr × JStr) :=
  [(DECISIONp, tyDecision), (CODEp, tyCode), (GUIDANCEp, tyGuidance),
   (APPROVALp, tyApproval), (QUESTIONp, tyQuestion)]

/-- C4 counterexample: detection is neither case-insensitive nor restricted to
line-leading positions, and capture stops at ANY all-caps prefix, recognised
or not. `parse("decision: use postgres")` yields `general` although the claim
's case-insensitive rule demands `decision`; a mid-line `DECISION:` is
detected although it leads no line; and an unrecognised `NOTE:` line ends the
capture although the claim says only a different recognised prefix does. -/
theorem parseHumanResponse_case_sensitive_cex :
    ((HumanLoopService.parseHumanResponse (r"decision: use postgres").data).ty = tyGeneral) ∧
    tyGeneral ≠ tyDecision ∧
    ((HumanLoopService.parseHumanResponse (r"some text mentions DECISION: here").data).ty
      = tyDecision) ∧
    ((HumanLoopService.parseHumanResponse
        ((r"DECISION: a").data ++ '\n' :: (r"NOTE: b").data)).content = (r"a").data) := by
  decide

/-- C4 (amended): `parseHumanResponse` commits to the first prefix in the
fixed priority order DECISION:, CODE:, GUIDANCE:, APPROVAL:, QUESTION: that
occurs case-sensitively as a substring ANYWHERE in the trimmed text (the
`includes` test decides exactly substring containment); for the committed
prefix, the content is captured declaratively: starting from the first line
whose trimmed form begins with the prefix (a later such line inside the zone
restarts the capture), the capture zone runs to the next line whose trimmed
form starts with any run of capital letters followed by a colon and which is
not itself a prefix line; the nonblank lines of the zone are trimmed and
joined with single spaces after the prefix line's own remainder. When no
prefix occurs, the type is `general` and the content the trimmed text. -/
theorem parseHumanResponse_priority_and_capture (text : JStr) :
    (∀ p, includes (jsTrim text) p = true ↔ p <:+: jsTrim text) ∧
    (match priorityOrder.find? (fun pr => includes (jsTrim text) pr.1) with
     | some pr => (HumanLoopService.parseHumanResponse text).ty = pr.2 ∧
         (HumanLoopService.parseHumanResponse text).content = extractSpec pr.1 (jsTrim text)
     | none => (HumanLoopService.parseHumanResponse text).ty = tyGeneral ∧
         (HumanLoopService.parseHumanResponse text).content = jsTrim text) := by
  refine ⟨fun p => includes_iff_substring _ p, ?_⟩
  by_cases h1 : includes (jsTrim text) DECISIONp = true
  · simp [priorityOrder, HumanLoopService.parseHumanResponse, h1,
      extractStructuredContent_eq_spec]
  · by_cases h2 : includes (jsTrim text) CODEp = true
    · simp [priorityOrder, HumanLoopService.parseHumanResponse, h1, h2,
        extractStructuredContent_eq_spec]
    · by_cases h3 : includes (jsTrim text) GUIDANCEp = true
      · simp [priorityOrder, HumanLoopService.parseHumanResponse, h1, h2, h3,
          extractStructuredContent_eq_spec]
      · by_cases h4 : includes (jsTrim text) APPROVALp = true
        · simp [priorityOrder, HumanLoopService.parseHumanResponse, h1, h2, h3, h4,
            extractStructuredContent_eq_spec]
        · by_cases h5 : includes (jsTrim text) QUESTIONp = true
          · simp [priorityOrder, HumanLoopService.parseHumanResponse, h1, h2, h3, h4, h5,
              extractStructuredContent_eq_spec]
          · simp [priorityOrder, HumanLoopService.parseHumanResponse, h1, h2, h3, h4, h5]

/-! ### C5/C6: the approval branch and the general fallback -/

/-- C5: on any text whose trimmed form contains `APPROVAL:` but none of the
higher-priority prefixes `DECISION:`, `CODE:`, `GUIDANCE:`, the parser
commits to an approval: the content is the declaratively captured APPROVAL:
block, `feedback` is the FEEDBACK: block captured anywhere in the text by the
same rule, and `approved` is true exactly when the captured approval text
case-insensitively contains "yes". In particular
`parse("APPROVAL: Yes\nFEEDBACK: add tests")` yields `approved = true` with
feedback "add tests", and `parse("APPROVAL: no")` yields `approved = false`. -/
theorem parseHumanResponse_approval_spec :
    (∀ text : JStr, ¬ DECISIONp <:+: jsTrim text → ¬ CODEp <:+: jsTrim text →
      ¬ GUIDANCEp <:+: jsTrim text → APPROVALp <:+: jsTrim text →
      ((HumanLoopService.parseHumanResponse text).ty = tyApproval ∧
       (HumanLoopService.parseHumanResponse text).content = extractSpec APPROVALp (jsTrim text) ∧
       (HumanLoopService.parseHumanResponse text).feedback = extractSpec FEEDBACKp (jsTrim text) ∧
       ((HumanLoopService.parseHumanResponse text).approved = true ↔
        YESp <:+: jsToLower (extractSpec APPROVALp (jsTrim text))))) ∧
    ((HumanLoopService.parseHumanResponse
        ((r"APPROVAL: Yes").data ++ '\n' :: (r"FEEDBACK: add tests").data)).approved = true) ∧
    ((HumanLoopService.parseHumanResponse
        ((r"APPROVAL: Yes").data ++ '\n' :: (r"FEEDBACK: add tests").data)).feedback
      = (r"add tests").data) ∧
    ((HumanLoopService.parseHumanResponse (r"APPROVAL: no").data).approved = false) := by
  refine ⟨?_, by decide, by decide, by decide⟩
  intro text h1 h2 h3 h4
  have b1 : includes (jsTrim text) DECISIONp = false := by
    rw [← Bool.not_eq_true, includes_iff_substring]
    exact h1
  have b2 : includes (jsTrim text) CODEp = false := by
    rw [← Bool.not_eq_true, includes_iff_substring]
    exact h2
  have b3 : includes (jsTrim text) GUIDANCEp = false := by
    rw [← Bool.not_eq_true, includes_iff_substring]
    exact h3
  have b4 : includes (jsTrim text) APPROVALp = true := (includes_iff_substring _ _).mpr h4
  refine ⟨?_, ?_, ?_, ?_⟩
  · simp [HumanLoopService.parseHumanResponse, b1, b2, b3, b4]
  · simp [HumanLoopService.parseHumanResponse, b1, b2, b3, b4,
      extractStructuredContent_eq_spec]
  · simp [HumanLoopService.parseHumanResponse, b1, b2, b3, b4,
      extractStructuredContent_eq_spec]
  · simp [HumanLoopService.parseHumanResponse, b1, b2, b3, b4,
      extractStructuredContent_eq_spec, includes_iff_substring]

/-- Witness for the C5 theorem at `"APPROVAL: Yes"`. -/
theorem parseHumanResponse_approval_spec_witness :
    (HumanLoopService.parseHumanResponse (r"APPROVAL: Yes").data).ty = tyApproval ∧
    (HumanLoopService.parseHumanResponse (r"APPROVAL: Yes").data).content
      = extractSpec APPROVALp (jsTrim (r"APPROVAL: Yes").data) ∧
    (HumanLoopService.parseHumanResponse (r"APPROVAL: Yes").data).feedback
      = extractSpec FEEDBACKp (jsTrim (r"APPROVAL: Yes").data) ∧
    ((HumanLoopService.parseHumanResponse (r"APPROVAL: Yes").data).approved = true ↔
      YESp <:+: jsToLower (extractSpec APPROVALp (jsTrim (r"APPROVAL: Yes").data))) :=
  parseHumanResponse_approval_spec.1 (r"APPROVAL: Yes").data
    (by decide) (by decide) (by decide) (by decide)

/-- C6: the parser never fails. Whenever none of the five recognised prefixes
occurs in the trimmed text, it returns a `general` response whose content is
the trimmed original text; empty or all-whitespace input yields a `general`
response with empty content. -/
theorem parseHumanResponse_general_fallback :
    (∀ text : JStr, ¬ DECISIONp <:+: jsTrim text → ¬ CODEp <:+: jsTrim text →
      ¬ GUIDANCEp <:+: jsTrim text → ¬ APPROVALp <:+: jsTrim text →
      ¬ QUESTIONp <:+: jsTrim text →
      HumanLoopService.parseHumanResponse text =
        { ty := tyGeneral, content := jsTrim text, raw := jsTrim text }) ∧
    (∀ text : JStr, (∀ c ∈ text, isWS c = true) →
      HumanLoopService.parseHumanResponse text =
        { ty := tyGeneral, content := [], raw := [] }) := by
  constructor
  · intro text h1 h2 h3 h4 h5
    have b1 : includes (jsTrim text) DECISIONp = false := by
      rw [← Bool.not_eq_true, includes_iff_substring]
      exact h1
    have b2 : includes (jsTrim text) CODEp = false := by
      rw [← Bool.not_eq_true, includes_iff_substring]
      exact h2
    have b3 : includes (jsTrim text) GUIDANCEp = false := by
      rw [← Bool.not_eq_true, includes_iff_substring]
      exact h3
    have b4 : includes (jsTrim text) APPROVALp = false := by
      rw [← Bool.not_eq_true, includes_iff_substring]
      exact h4
    have b5 : includes (jsTrim text) QUESTIONp = false := by
      rw [← Bool.not_eq_true, includes_iff_substring]
      exact h5
    simp [HumanLoopService.parseHumanResponse, b1, b2, b3, b4, b5]
  · intro text h
    have hnil : jsTrim text = [] := jsTrim_eq_nil_of_all_ws text h
    unfold HumanLoopService.parseHumanResponse
    rw [hnil]
    decide

/-- Witness for the C6 theorem: a plain reply and an all-whitespace reply. -/
theorem parseHumanResponse_general_fallback_witness :
    (HumanLoopService.parseHumanResponse (r"please use the staging db").data =
      { ty := tyGeneral, content := jsTrim (r"please use the staging db").data,
        raw := jsTrim (r"please use the staging db").data }) ∧
    (HumanLoopService.parseHumanResponse [' ', '\n', '\t'] =
      { ty := tyGeneral, content := [], raw := [] }) :=
  ⟨parseHumanResponse_general_fallback.1 (r"please use the staging db").data
     (by decide) (by decide) (by decide) (by decide) (by decide),
   parseHumanResponse_general_fallback.2 [' ', '\n', '\t'] (by decide)⟩

/-! ### C7: the verification-required policy -/

/-- C7: human verification is required exactly when a risk keyword occurs in
the lowercased task description or plan text, or the risks section exceeds 50
characters, or the files list has more than 3 lines; and every task whose
description contains "security" gets a verification request after planning
and does not proceed to branch creation. -/
theorem shouldVerifyOutcome_policy :
    (∀ (plan : DevelopmentWorkflow.Plan) (task : DevelopmentWorkflow.WTask),
      DevelopmentWorkflow.shouldVerifyOutcome plan task = true ↔
        ((∃ kw ∈ DevelopmentWorkflow.complexityIndicators,
            kw <:+: jsToLower task.description ∨ kw <:+: jsToLower plan.fullPlan) ∨
         50 < plan.risks.length ∨ 3 < (splitNl plan.files).length)) ∧
    (∀ (plan : DevelopmentWorkflow.Plan) (task : DevelopmentWorkflow.WTask)
       (testResults : DevelopmentWorkflow.TestResults),
      includes task.description (r"security").data = true →
      ((DevelopmentWorkflow.executeWorkflow task false plan testResults).1.status
          = stAwaitingVerification ∧
       Event.verificationRequested task.id
          ∈ (DevelopmentWorkflow.executeWorkflow task false plan testResults).2 ∧
       ∀ tid, Event.branchCreated tid
          ∉ (DevelopmentWorkflow.executeWorkflow task false plan testResults).2)) := by
  have hiff : ∀ (plan : DevelopmentWorkflow.Plan) (task : DevelopmentWorkflow.WTask),
      DevelopmentWorkflow.shouldVerifyOutcome plan task = true ↔
        ((∃ kw ∈ DevelopmentWorkflow.complexityIndicators,
            kw <:+: jsToLower task.description ∨ kw <:+: jsToLower plan.fullPlan) ∨
         50 < plan.risks.length ∨ 3 < (splitNl plan.files).length) := by
    intro plan task
    unfold DevelopmentWorkflow.shouldVerifyOutcome
    simp only [Bool.or_eq_true, Bool.and_eq_true, List.any_eq_true, Bool.not_eq_true',
      decide_eq_true_eq, includes_iff_substring]
    constructor
    · rintro ((⟨kw, hkw, hor⟩ | ⟨_, hlen⟩) | ⟨_, hlen⟩)
      · exact Or.inl ⟨kw, hkw, hor⟩
      · exact Or.inr (Or.inl hlen)
      · exact Or.inr (Or.inr hlen)
    · rintro (⟨kw, hkw, hor⟩ | hlen | hlen)
      · exact Or.inl (Or.inl ⟨kw, hkw, hor⟩)
      · refine Or.inl (Or.inr ⟨?_, hlen⟩)
        have hpos : 0 < plan.risks.length := by omega
        simpa [List.isEmpty_iff] using List.ne_nil_of_length_pos hpos
      · refine Or.inr ⟨?_, hlen⟩
        rcases hf : plan.risks with _ | _
        all_goals {
          rcases hfe : plan.files with _ | _
          · rw [hfe] at hlen
            simp [splitNl] at hlen
          · simp [List.isEmpty_iff, hfe]
        }
  refine ⟨hiff, ?_⟩
  intro plan task testResults hsec
  have hmap := includes_map Char.toLower task.description (r"security").data hsec
  rw [show ((r"security").data.map Char.toLower) = (r"security").data from by decide] at hmap
  have hshould : DevelopmentWorkflow.shouldVerifyOutcome plan task = true := by
    rw [hiff plan task]
    refine Or.inl ⟨(r"security").data, by decide, Or.inl ?_⟩
    rw [← includes_iff_substring]
    exact hmap
  unfold DevelopmentWorkflow.executeWorkflow
  rw [if_neg (by simp), if_pos hshould]
  refine ⟨rfl, by simp, ?_⟩
  intro tid
  simp

/-- Witness for the C7 theorem at a concrete security-related task. -/
theorem shouldVerifyOutcome_policy_witness :
    (includes (r"add security check").data (r"security").data = true) ∧
    (((DevelopmentWorkflow.executeWorkflow
        { id := (r"t7").data, description := (r"add security check").data }
        false {} {}).1.status = stAwaitingVerification) ∧
     Event.verificationRequested (r"t7").data
        ∈ (DevelopmentWorkflow.executeWorkflow
            { id := (r"t7").data, description := (r"add security check").data }
            false {} {}).2 ∧
     ∀ tid, Event.branchCreated tid
        ∉ (DevelopmentWorkflow.executeWorkflow
            { id := (r"t7").data, description := (r"add security check").data }
            false {} {}).2) :=
  ⟨by decide,
   shouldVerifyOutcome_policy.2 {}
     { id := (r"t7").data, description := (r"add security check").data } {} (by decide)⟩

/-! ### C8: the testing stage never re-runs the tests -/

/-- C8 counterexample: on a failing test run the fix is attempted, but the
tests are executed exactly once — not re-run — and the original failing
result is what `runTests` returns. -/
theorem runTests_no_rerun_cex :
    ((DevelopmentWorkflow.runTests
        { exitCode := 1, output := (r"1 failing").data, error := [] }).2.count
      Event.testsExecuted = 1) ∧
    ¬ ((DevelopmentWorkflow.runTests
        { exitCode := 1, output := (r"1 failing").data, error := [] }).2.count
      Event.testsExecuted = 2) ∧
    ((DevelopmentWorkflow.runTests
        { exitCode := 1, output := (r"1 failing").data, error := [] }).1
      = { exitCode := 1, output := (r"1 failing").data, error := [] }) := by
  decide

/-- C8 (amended): in the testing stage the external test command runs exactly
once; on a nonzero exit code the agent capability is invoked once with the
failure output and error details and the result committed, but the tests are
NOT re-run — `runTests` returns the original failing results and the workflow
proceeds with them; on a zero exit code nothing but the single test execution
happens. -/
theorem runTests_single_fix_no_rerun (tr : DevelopmentWorkflow.TestResults) :
    ((DevelopmentWorkflow.runTests tr).1 = tr) ∧
    ((DevelopmentWorkflow.runTests tr).2.count Event.testsExecuted = 1) ∧
    (tr.exitCode ≠ 0 →
      (DevelopmentWorkflow.runTests tr).2
        = [Event.testsExecuted, Event.agentInvoked (tr.output ++ tr.error),
           Event.gitAddAll, Event.gitCommit DevelopmentWorkflow.testFixCommitMsg]) ∧
    (tr.exitCode = 0 → (DevelopmentWorkflow.runTests tr).2 = [Event.testsExecuted]) := by
  by_cases h : tr.exitCode = 0
  · simp [DevelopmentWorkflow.runTests, DevelopmentWorkflow.fixFailingTests, h]
  · simp [DevelopmentWorkflow.runTests, DevelopmentWorkflow.fixFailingTests, h,
      List.count_cons, List.count_nil, beq_iff_eq]

/-- Witness for the C8 amended theorem at a failing test result. -/
theorem runTests_single_fix_no_rerun_witness :
    (DevelopmentWorkflow.runTests
        { exitCode := 1, output := (r"boom").data, error := (r"assertion").data }).2
      = [Event.testsExecuted,
         Event.agentInvoked ((r"boom").data ++ (r"assertion").data),
         Event.gitAddAll, Event.gitCommit DevelopmentWorkflow.testFixCommitMsg] :=
  (runTests_single_fix_no_rerun
      { exitCode := 1, output := (r"boom").data, error := (r"assertion").data }).2.2.1
    (by decide)

/-! ### C9: the sweep cancels with a long reason and never notifies the
workflow engine -/

namespace HumanLoopService

theorem cancel_events_shape (st : HLState) (rid reason : JStr) (now : Nat) :
    ∀ e ∈ ((cancelPendingRequest st rid reason now).2).events,
      e ∈ st.events ∨ ∃ n, e = Event.cancellationComment n reason := by
  intro e he
  unfold cancelPendingRequest at he
  rcases hget : mapGet st.pendingRequests rid with _ | q
  · rw [hget] at he
    exact Or.inl he
  · rw [hget] at he
    simp only [List.mem_append, List.mem_singleton] at he
    rcases he with h1 | h2
    · exact Or.inl h1
    · exact Or.inr ⟨q.issueNumber, h2⟩

theorem cancel_events_mono (st : HLState) (rid reason : JStr) (now : Nat) (e : Event)
    (he : e ∈ st.events) : e ∈ ((cancelPendingRequest st rid reason now).2).events := by
  unfold cancelPendingRequest
  rcases hget : mapGet st.pendingRequests rid with _ | q
  · exact he
  · simp only [List.mem_append]
    exact Or.inl he

theorem cancel_mapGet_ne (st : HLState) (rid reason : JStr) (now : Nat) (k : JStr)
    (hk : k ≠ rid) :
    mapGet ((cancelPendingRequest st rid reason now).2).pendingRequests k
      = mapGet st.pendingRequests k := by
  unfold cancelPendingRequest
  rcases hget : mapGet st.pendingRequests rid with _ | q
  · rfl
  · simp only
    rw [mapGet_delete_ne _ _ _ hk, mapGet_set_ne _ _ _ _ hk]

theorem cancel_mapGet_self (st : HLState) (rid reason : JStr) (now : Nat)
    (h : mapGet st.pendingRequests rid = none ∨ True) :
    mapGet ((cancelPendingRequest st rid reason now).2).pendingRequests rid = none := by
  unfold cancelPendingRequest
  rcases hget : mapGet st.pendingRequests rid with _ | q
  · exact hget
  · simp only
    rw [mapGet_delete_self]

theorem cancel_events_of_some (st : HLState) (rid reason : JStr) (now : Nat)
    (q : Request) (hget : mapGet st.pendingRequests rid = some q) :
    ((cancelPendingRequest st rid reason now).2).events
      = st.events ++ [Event.cancellationComment q.issueNumber reason] := by
  unfold cancelPendingRequest
  rw [hget]

theorem foldCancel_events_shape (now : Nat) :
    ∀ (ids : List JStr) (st : HLState) (e : Event),
      e ∈ (ids.foldl (fun s rid => (cancelPendingRequest s rid timeoutReason now).2) st).events →
      e ∈ st.events ∨ ∃ n, e = Event.cancellationComment n timeoutReason := by
  intro ids
  induction ids with
  | nil =>
    intro st e he
    exact Or.inl he
  | cons rid rest ih =>
    intro st e he
    rw [List.foldl_cons] at he
    rcases ih _ e he with h1 | h2
    · exact cancel_events_shape st rid timeoutReason now e h1
    · exact Or.inr h2

theorem foldCancel_events_mono (now : Nat) :
    ∀ (ids : List JStr) (st : HLState) (e : Event), e ∈ st.events →
      e ∈ (ids.foldl (fun s rid => (cancelPendingRequest s rid timeoutReason now).2) st).events := by
  intro ids
  induction ids with
  | nil =>
    intro st e he
    exact he
  | cons rid rest ih =>
    intro st e he
    rw [List.foldl_cons]
    exact ih _ e (cancel_events_mono st rid timeoutReason now e he)

theorem foldCancel_mapGet_none (now : Nat) :
    ∀ (ids : List JStr) (st : HLState) (k : JStr),
      mapGet st.pendingRequests k = none →
      mapGet (ids.foldl (fun s rid => (cancelPendingRequest s rid timeoutReason now).2)
        st).pendingRequests k = none := by
  intro ids
  induction ids with
  | nil =>
    intro st k h
    exact h
  | cons rid rest ih =>
    intro st k h
    rw [List.foldl_cons]
    refine ih _ k ?_
    by_cases hk : k = rid
    · rw [hk]
      exact cancel_mapGet_self st rid timeoutReason now (Or.inr trivial)
    · rw [cancel_mapGet_ne st rid timeoutReason now k hk]
      exact h

theorem foldCancel_mapGet_mem (now : Nat) :
    ∀ (ids : List JStr) (st : HLState) (k : JStr), k ∈ ids →
      mapGet (ids.foldl (fun s rid => (cancelPendingRequest s rid timeoutReason now).2)
        st).pendingRequests k = none := by
  intro ids
  induction ids with
  | nil =>
    intro st k h
    simp at h
  | cons rid rest ih =>
    intro st k h
    rw [List.foldl_cons]
    by_cases hk : k = rid
    · refine foldCancel_mapGet_none now rest _ k ?_
      rw [hk]
      exact cancel_mapGet_self st rid timeoutReason now (Or.inr trivial)
    · refine ih _ k ?_
      rcases List.mem_cons.mp h with h1 | h2
      · exact absurd h1 hk
      · exact h2

theorem foldCancel_mapGet_notmem (now : Nat) :
    ∀ (ids : List JStr) (st : HLState) (k : JStr), k ∉ ids →
      mapGet (ids.foldl (fun s rid => (cancelPendingRequest s rid timeoutReason now).2)
        st).pendingRequests k = mapGet st.pendingRequests k := by
  intro ids
  induction ids with
  | nil =>
    intro st k _
    rfl
  | cons rid rest ih =>
    intro st k h
    rw [List.foldl_cons]
    have hk : k ≠ rid := fun hh => h (by rw [hh]; exact List.mem_cons_self rid rest)
    have hrest : k ∉ rest := fun hh => h (List.mem_cons_of_mem rid hh)
    rw [ih _ k hrest, cancel_mapGet_ne st rid timeoutReason now k hk]

/-- With pairwise-distinct keys, an entry of the map is what `mapGet`
returns. -/
theorem mapGet_of_mem_nodup (m : List (JStr × Request)) (k : JStr) (q : Request)
    (hmem : (k, q) ∈ m) (hnd : (m.map Prod.fst).Nodup) : mapGet m k = some q := by
  induction m with
  | nil => simp at hmem
  | cons p t ih =>
    rw [List.map_cons, List.nodup_cons] at hnd
    rcases List.mem_cons.mp hmem with h1 | h2
    · unfold mapGet
      rw [← h1]
      rw [List.find?_cons_of_pos _ (by simp)]
      rfl
    · have hkp : p.1 ≠ k := by
        intro hh
        exact hnd.1 (hh ▸ List.mem_map.mpr ⟨(k, q), h2, rfl⟩)
      unfold mapGet
      rw [List.find?_cons_of_neg _ (by simpa using hkp)]
      exact ih h2 hnd.2

end HumanLoopService

/-- C9 (amended): any request still pending past `maxAge` is removed from the
pending map by the sweep and a cancellation comment with the reason string
`"timeout - no response received"` (not `"timeout"`) is posted on its issue;
the sweep emits nothing else — in particular it never notifies the Workflow
Engine, never updates any task status, and the associated task stays in its
awaiting stage. -/
theorem cleanupOldRequests_sweep (st : HumanLoopService.HLState)
    (now maxAgeHours : Nat) (k : JStr) (q : HumanLoopService.Request)
    (hmem : (k, q) ∈ st.pendingRequests)
    (hpend : q.status = stPending)
    (hold : q.createdAt < now - maxAgeHours * 60 * 60 * 1000)
    (hkeys : (st.pendingRequests.map Prod.fst).Nodup) :
    mapGet (HumanLoopService.cleanupOldRequests st now maxAgeHours).pendingRequests k
      = none ∧
    Event.cancellationComment q.issueNumber timeoutReason
      ∈ (HumanLoopService.cleanupOldRequests st now maxAgeHours).events ∧
    (∀ e ∈ (HumanLoopService.cleanupOldRequests st now maxAgeHours).events,
      e ∈ st.events ∨ ∃ n, e = Event.cancellationComment n timeoutReason) ∧
    timeoutReason ≠ (r"timeout").data := by
  simp only [HumanLoopService.cleanupOldRequests]
  have hk_in : k ∈ (st.pendingRequests.filter (fun p =>
      p.2.createdAt < now - maxAgeHours * 60 * 60 * 1000 &&
        p.2.status = stPending)).map Prod.fst := by
    refine List.mem_map.mpr ⟨(k, q), ?_, rfl⟩
    refine List.mem_filter.mpr ⟨hmem, ?_⟩
    simp [hold, hpend]
  refine ⟨?_, ?_, ?_, by decide⟩
  · exact HumanLoopService.foldCancel_mapGet_mem now _ st k hk_in
  · have hnodup_ids : ((st.pendingRequests.filter (fun p =>
        p.2.createdAt < now - maxAgeHours * 60 * 60 * 1000 &&
          p.2.status = stPending)).map Prod.fst).Nodup := by
      refine List.Nodup.sublist ?_ hkeys
      exact (List.filter_sublist _).map Prod.fst
    obtain ⟨l1, l2, hsplit⟩ := List.append_of_mem hk_in
    have hknotl1 : k ∉ l1 := by
      rw [hsplit] at hnodup_ids
      have hd := (List.nodup_append.mp hnodup_ids).2.2
      intro hin
      exact hd hin (List.mem_cons_self k l2)
    rw [hsplit, List.foldl_append, List.foldl_cons]
    have hval : mapGet (l1.foldl (fun s rid =>
        (HumanLoopService.cancelPendingRequest s rid timeoutReason now).2)
        st).pendingRequests k = some q := by
      rw [HumanLoopService.foldCancel_mapGet_notmem now l1 st k hknotl1]
      exact HumanLoopService.mapGet_of_mem_nodup st.pendingRequests k q hmem hkeys
    refine HumanLoopService.foldCancel_events_mono now l2 _ _ ?_
    rw [HumanLoopService.cancel_events_of_some _ _ _ _ q hval]
    simp
  · exact HumanLoopService.foldCancel_events_shape now _ st

/-- C9 counterexample: a concrete pending request older than `maxAge` is
cancelled by the sweep with the reason `"timeout - no response received"`,
which differs from the claimed `"timeout"`, and the sweep emits no
`taskStatusUpdated` (Workflow Engine) event at all, so the associated task is
left in its awaiting stage. -/
theorem cleanupOldRequests_reason_cex :
    ((HumanLoopService.cleanupOldRequests
        (HumanLoopService.requestHumanInput {} (r"t1").data (r"a1").data 0).2
        (25 * 60 * 60 * 1000) 24).events
      = [Event.issueCreated (r"t1").data 1,
         Event.cancellationComment 1 timeoutReason]) ∧
    timeoutReason ≠ (r"timeout").data ∧
    (∀ tid stage, Event.taskStatusUpdated tid stage ∉
      (HumanLoopService.cleanupOldRequests
        (HumanLoopService.requestHumanInput {} (r"t1").data (r"a1").data 0).2
        (25 * 60 * 60 * 1000) 24).events) ∧
    ((HumanLoopService.cleanupOldRequests
        (HumanLoopService.requestHumanInput {} (r"t1").data (r"a1").data 0).2
        (25 * 60 * 60 * 1000) 24).pendingRequests = []) := by
  refine ⟨by decide, by decide, ?_, by decide⟩
  intro tid stage
  have hev : (HumanLoopService.cleanupOldRequests
      (HumanLoopService.requestHumanInput {} (r"t1").data (r"a1").data 0).2
      (25 * 60 * 60 * 1000) 24).events
      = [Event.issueCreated (r"t1").data 1,
         Event.cancellationComment 1 timeoutReason] := by decide
  rw [hev]
  simp

/-- Witness for the C9 amended theorem at a concrete overdue request. -/
theorem cleanupOldRequests_sweep_witness :
    ((r"t1_0").data,
      ({ id := (r"t1_0").data, taskId := (r"t1").data, agentId := (r"a1").data,
         issueNumber := 1, createdAt := 0,
         status := stPending } : HumanLoopService.Request))
      ∈ (HumanLoopService.requestHumanInput {} (r"t1").data
          (r"a1").data 0).2.pendingRequests ∧
    (mapGet (HumanLoopService.cleanupOldRequests
        (HumanLoopService.requestHumanInput {} (r"t1").data (r"a1").data 0).2
        (25 * 60 * 60 * 1000) 24).pendingRequests (r"t1_0").data = none ∧
     Event.cancellationComment 1 timeoutReason
       ∈ (HumanLoopService.cleanupOldRequests
           (HumanLoopService.requestHumanInput {} (r"t1").data (r"a1").data 0).2
           (25 * 60 * 60 * 1000) 24).events ∧
     (∀ e ∈ (HumanLoopService.cleanupOldRequests
          (HumanLoopService.requestHumanInput {} (r"t1").data (r"a1").data 0).2
          (25 * 60 * 60 * 1000) 24).events,
       e ∈ (HumanLoopService.requestHumanInput {} (r"t1").data
             (r"a1").data 0).2.events ∨
       ∃ n, e = Event.cancellationComment n timeoutReason) ∧
     timeoutReason ≠ (r"timeout").data) :=
  ⟨by decide,
   cleanupOldRequests_sweep
     (HumanLoopService.requestHumanInput {} (r"t1").data (r"a1").data 0).2
     (25 * 60 * 60 * 1000) 24 (r"t1_0").data
     { id := (r"t1_0").data, taskId := (r"t1").data, agentId := (r"a1").data,
       issueNumber := 1, createdAt := 0, status := stPending }
     (by decide) (by decide) (by decide) (by decide)⟩

/-! ### C2: approval resolutions never reach the verification handler -/

/-- C2 (code bug): resolving a verification checkpoint through the human-loop
path with the comment `"APPROVAL: Yes"` parses to an `approval` response with
`approved = true`, yet `AgentService.processHumanResponse` dispatches only on
the type names `clarification`, `verification` and `review_feedback`, so the
`approval` type matches no branch: the stage stays `awaiting_verification`,
no events are emitted, and the task does not advance to `branch_creation` —
contradicting the repository's own workflow documentation. Had the dispatch
received the type name `verification` instead, the very same comment would
advance the task to `branch_creation`, and an `"APPROVAL: No"` with feedback
would regenerate the plan from the feedback text and re-request verification:
the handler exists but is keyed to a type name the parser never produces. -/
theorem approval_resolution_not_dispatched_bug :
    ((HumanLoopService.parseHumanResponse (r"APPROVAL: Yes").data).ty = tyApproval) ∧
    ((HumanLoopService.parseHumanResponse (r"APPROVAL: Yes").data).approved = true) ∧
    (AgentService.resolveAtStage (r"t2").data stAwaitingVerification (r"plan").data
        (r"APPROVAL: Yes").data
      = (stAwaitingVerification, [])) ∧
    ((AgentService.resolveAtStage (r"t2").data stAwaitingVerification (r"plan").data
        (r"APPROVAL: Yes").data).1 ≠ stBranchCreation) ∧
    (AgentService.processHumanResponse (r"t2").data stAwaitingVerification (r"plan").data
        tyVerification (r"APPROVAL: Yes").data
      = (stBranchCreation,
         [Event.taskStatusUpdated (r"t2").data stBranchCreation,
          Event.branchCreated (r"t2").data])) ∧
    (AgentService.processHumanResponse (r"t2").data stAwaitingVerification (r"plan").data
        tyVerification
        ((r"APPROVAL: No").data ++ '\n' :: (r"FEEDBACK: redo with OAuth").data)
      = (stAwaitingVerification,
         [Event.planRegenerated (r"plan").data (r"redo with OAuth").data,
          Event.verificationRequested (r"t2").data,
          Event.taskStatusUpdated (r"t2").data stAwaitingVerification])) := by
  decide

/-! ### C10: the three response parsers are not equivalent -/

theorem splitNl_no_newline (s : JStr) (h : '\n' ∉ s) : splitNl s = [s] := by
  induction s with
  | nil => rfl
  | cons c rest ih =>
    have hc : c ≠ '\n' := fun hh => h (by rw [hh]; exact List.mem_cons_self _ _)
    have hrest : '\n' ∉ rest := fun hh => h (List.mem_cons_of_mem c hh)
    rw [splitNl, ih hrest]
    simp [hc]

theorem jsIndexOf_of_startsWith (s p : JStr) (hsw : jsStartsWith s p = true)
    (hp : p ≠ []) : jsIndexOf s p = 0 := by
  cases s with
  | nil =>
    unfold jsStartsWith at hsw
    rw [List.isPrefixOf_iff_prefix] at hsw
    exact absurd (List.prefix_nil.mp hsw) hp
  | cons c rest =>
    unfold jsIndexOf
    rw [if_pos (show List.isPrefixOf p (c :: rest) = true from hsw)]

/-- On a single-line, already-trimmed text starting with the prefix, the
structured capture is just the trimmed remainder of the line. -/
theorem extract_single_line (t key : JStr) (hnl : '\n' ∉ t) (ht : jsTrim t = t)
    (hsw : jsStartsWith t key = true) (hk : key ≠ []) :
    HumanLoopService.extractStructuredContent t key = jsTrim (t.drop key.length) := by
  unfold HumanLoopService.extractStructuredContent
  rw [splitNl_no_newline t hnl, HumanLoopService.extractLoop, ht, if_pos hsw,
    HumanLoopService.extractLoop]
  rw [jsIndexOf_of_startsWith t key hsw hk]
  have hcast : ((0 : Int) + (key.length : Int)).toNat = key.length := by
    simp
  unfold substringFrom
  rw [hcast, jsTrim_idem]

/-- C10 counterexample: the parsers are not equivalent. `GiteaClient` has no
`QUESTION:` branch, so `"QUESTION: why?"` is typed `question` by
`HumanLoopService` but `general` by `GiteaClient`; a mid-line prefix is
detected by `HumanLoopService` (substring test) but not by `GiteaClient`
(line-leading test); and on `"APPROVAL: no, but yes later"` the two
contains-"yes" parsers say approved while `AgentService.parseVerification`'s
regex, which matches `(Yes|No)` right after the colon, says not approved. -/
theorem parsers_not_equivalent_cex :
    ((HumanLoopService.parseHumanResponse (r"QUESTION: why?").data).ty = tyQuestion) ∧
    ((GiteaClient.parseOneComment (r"QUESTION: why?").data).ty = tyGeneral) ∧
    tyQuestion ≠ tyGeneral ∧
    ((HumanLoopService.parseHumanResponse (r"note DECISION: go").data).ty = tyDecision) ∧
    ((GiteaClient.parseOneComment (r"note DECISION: go").data).ty = tyGeneral) ∧
    ((HumanLoopService.parseHumanResponse (r"APPROVAL: no, but yes later").data).approved
      = true) ∧
    ((GiteaClient.parseOneComment (r"APPROVAL: no, but yes later").data).approved = true) ∧
    ((AgentService.parseVerification (r"APPROVAL: no, but yes later").data).approved
      = false) := by
  decide

/-- C10 (amended): the three parsers are not equivalent in general, but on
single-line comment bodies that start (after trimming) with `APPROVAL:` and
contain no higher-priority prefix, `HumanLoopService.parseHumanResponse` and
`GiteaClient.parseHumanResponse` assign the same `approval` type and the same
`approved` flag; and on the canonical replies `"APPROVAL: Yes"` /
`"APPROVAL: No"` all three parsers, `AgentService.parseVerification`
included, agree on `approved`. -/
theorem parsers_agree_on_approvals :
    (∀ body : JStr, '\n' ∉ body →
      jsStartsWith (jsTrim body) APPROVALp = true →
      ¬ DECISIONp <:+: jsTrim body → ¬ CODEp <:+: jsTrim body →
      ¬ GUIDANCEp <:+: jsTrim body →
      ((HumanLoopService.parseHumanResponse body).ty = tyApproval ∧
       (GiteaClient.parseOneComment body).ty = tyApproval ∧
       (HumanLoopService.parseHumanResponse body).approved
         = (GiteaClient.parseOneComment body).approved)) ∧
    ((HumanLoopService.parseHumanResponse (r"APPROVAL: Yes").data).approved = true ∧
     (GiteaClient.parseOneComment (r"APPROVAL: Yes").data).approved = true ∧
     (AgentService.parseVerification (r"APPROVAL: Yes").data).approved = true) ∧
    ((HumanLoopService.parseHumanResponse (r"APPROVAL: No").data).approved = false ∧
     (GiteaClient.parseOneComment (r"APPROVAL: No").data).approved = false ∧
     (AgentService.parseVerification (r"APPROVAL: No").data).approved = false) := by
  refine ⟨?_, by decide, by decide⟩
  intro body hnl hsw h1 h2 h3
  have hnl' : '\n' ∉ jsTrim body := fun hh => hnl (mem_of_mem_jsTrim body '\n' hh)
  have b1 : includes (jsTrim body) DECISIONp = false := by
    rw [← Bool.not_eq_true, includes_iff_substring]
    exact h1
  have b2 : includes (jsTrim body) CODEp = false := by
    rw [← Bool.not_eq_true, includes_iff_substring]
    exact h2
  have b3 : includes (jsTrim body) GUIDANCEp = false := by
    rw [← Bool.not_eq_true, includes_iff_substring]
    exact h3
  have b4 : includes (jsTrim body) APPROVALp = true :=
    includes_of_startsWith _ _ hsw
  have hsw1 : jsStartsWith (jsTrim body) DECISIONp = false := by
    rw [← Bool.not_eq_true]
    intro hh
    rw [← includes_iff_substring] at h1
    exact h1 (includes_of_startsWith _ _ hh)
  have hsw2 : jsStartsWith (jsTrim body) CODEp = false := by
    rw [← Bool.not_eq_true]
    intro hh
    rw [← includes_iff_substring] at h2
    exact h2 (includes_of_startsWith _ _ hh)
  have hsw3 : jsStartsWith (jsTrim body) GUIDANCEp = false := by
    rw [← Bool.not_eq_true]
    intro hh
    rw [← includes_iff_substring] at h3
    exact h3 (includes_of_startsWith _ _ hh)
  have hext : HumanLoopService.extractStructuredContent (jsTrim body) APPROVALp
      = jsTrim ((jsTrim body).drop APPROVALp.length) :=
    extract_single_line (jsTrim body) APPROVALp hnl' (jsTrim_idem body) hsw
      (by decide)
  refine ⟨?_, ?_, ?_⟩
  · simp [HumanLoopService.parseHumanResponse, b1, b2, b3, b4]
  · simp [GiteaClient.parseOneComment, hsw1, hsw2, hsw3, hsw]
  · simp [HumanLoopService.parseHumanResponse, GiteaClient.parseOneComment,
      b1, b2, b3, b4, hsw1, hsw2, hsw3, hsw, hext]
    rfl

/-- Witness for the C10 amended theorem at a single-line approval body. -/
theorem parsers_agree_on_approvals_witness :
    (HumanLoopService.parseHumanResponse (r"  APPROVAL: yes please").data).ty
      = tyApproval ∧
    (GiteaClient.parseOneComment (r"  APPROVAL: yes please").data).ty = tyApproval ∧
    (HumanLoopService.parseHumanResponse (r"  APPROVAL: yes please").data).approved
      = (GiteaClient.parseOneComment (r"  APPROVAL: yes please").data).approved :=
  parsers_agree_on_approvals.1 (r"  APPROVAL: yes please").data
    (by decide) (by decide) (by decide) (by decide) (by decide)
